import Mathlib

/-!
Verification development for the `steve` log-extraction pipeline.

This file gives a shallow embedding of the two core modules:

* `steve/helpers/projects_extract.py` — the event normalizer
  (`extract_events` and its helpers), which turns one decoded JSONL
  record into a list of typed events; and
* `steve/helpers/projects_dataset.py` — the correlation engine
  (`iter_dataset_rows_from_events`), which pairs tool-use events with
  tool-result events and emits dataset rows.

JSON values are modelled by the inductive `JValue`; Python dicts are
association lists with unique keys (the shape `json.loads` produces).
Python truthiness (`bool(x)`) is modelled by `truthy`; `str.strip` by
`pyStrip` (trimming surrounding whitespace); floats `1.0` / `-1.0` —
the only float values the code produces — are modelled by the integers
`1` / `-1`.  The stateful generator of the correlator is embedded as an
explicit step function `stepEvent` over `CorrState` together with the
fold `runEvents`.
-/

namespace Steve

/-- A JSON-decoded value, as produced by `json.loads` on one log line. -/
inductive JValue where
  | null : JValue
  | bool (b : Bool) : JValue
  | num (q : Rat) : JValue
  | str (s : String) : JValue
  | arr (xs : List JValue) : JValue
  | obj (fields : List (String × JValue)) : JValue

/-- Python `d.get(k)`: first binding of `k` in the association list, if any. -/
def jget (d : List (String × JValue)) (k : String) : Option JValue :=
  match d with
  | [] => none
  | (k', v) :: rest => if k' = k then some v else jget rest k

/-- Python truthiness `bool(v)` of a JSON value. -/
def truthy : JValue → Bool
  | JValue.null => false
  | JValue.bool b => b
  | JValue.num q => if q = 0 then false else true
  | JValue.str s => if s = "" then false else true
  | JValue.arr xs => if xs.isEmpty then false else true
  | JValue.obj fields => if fields.isEmpty then false else true

/-- Python truthiness of `d.get(k)` (absent field is `None`, hence falsy). -/
def optTruthy (o : Option JValue) : Bool :=
  match o with
  | none => false
  | some v => truthy v

/-- Python `v is True` on an optional JSON value. -/
def isJTrue (o : Option JValue) : Bool :=
  match o with
  | some (JValue.bool true) => true
  | _ => false

/-- ASCII whitespace, the characters `str.strip()` removes (the logs are
ASCII-whitespace-delimited; exotic unicode whitespace is not modelled). -/
def isSpaceChar (c : Char) : Bool :=
  c == ' ' || c == '\t' || c == '\n' || c == '\r' || c == '\x0b' || c == '\x0c'

/-- Python `str.strip()` — drop leading and trailing whitespace. -/
def pyStrip (s : String) : String :=
  ⟨((s.data.dropWhile isSpaceChar).reverse.dropWhile isSpaceChar).reverse⟩

/-- `_get_str(d, k)` from `projects_extract.py`: the value if it is a string. -/
def get_str (d : List (String × JValue)) (k : String) : Option String :=
  match jget d k with
  | some (JValue.str s) => some s
  | _ => none

/-- `item.get("type") == tag` — true exactly when the field is the string `tag`. -/
def isTypeTag (f : List (String × JValue)) (tag : String) : Bool :=
  match jget f "type" with
  | some (JValue.str s) => s = tag
  | _ => false

/-- `MessageEvent` dataclass from `projects_extract.py`. -/
structure MessageEvent where
  session_id : Option String
  uuid : Option String
  parent_uuid : Option String
  timestamp : Option String
  role : Option String
  text : String

/-- `ToolUseEvent` dataclass from `projects_extract.py`. -/
structure ToolUseEvent where
  session_id : Option String
  uuid : Option String
  parent_uuid : Option String
  timestamp : Option String
  role : String
  tool_name : String
  tool_use_id : Option String
  tool_input : List (String × JValue)

/-- `ToolResultEvent` dataclass from `projects_extract.py`. -/
structure ToolResultEvent where
  session_id : Option String
  uuid : Option String
  parent_uuid : Option String
  timestamp : Option String
  role : String
  tool_use_id : Option String
  is_error : Bool
  content_text : String

/-- The `NormalizedEvent` union type from `projects_extract.py`. -/
inductive NormalizedEvent where
  | message (m : MessageEvent) : NormalizedEvent
  | toolUse (t : ToolUseEvent) : NormalizedEvent
  | toolResult (r : ToolResultEvent) : NormalizedEvent

/-- The text chunks collected from a list-shaped content: string field `text`
of items whose `type` is `"text"`, skipping empty strings — the inner loop
shared by `_extract_text_from_message` and the tool-result branch. -/
def textChunks (c : List JValue) : List String :=
  c.filterMap fun ch =>
    match ch with
    | JValue.obj f =>
      if isTypeTag f "text" then
        match jget f "text" with
        | some (JValue.str tx) => if tx = "" then none else some tx
        | _ => none
      else none
    | _ => none

/-- `_extract_text_from_message` from `projects_extract.py`. -/
def extract_text_from_message (message : JValue) : String :=
  match message with
  | JValue.str s => s
  | JValue.obj mf =>
    match jget mf "content" with
    | some (JValue.str s) => s
    | some (JValue.arr items) => pyStrip (String.intercalate "\n" (textChunks items))
    | _ => ""
  | _ => ""

/-- The `record["message"]` field. -/
def recordMsg (record : List (String × JValue)) : Option JValue :=
  jget record "message"

/-- The declared role of the embedded message, when the message is a dict. -/
def recordRole (record : List (String × JValue)) : Option String :=
  match recordMsg record with
  | some (JValue.obj mf) => get_str mf "role"
  | _ => none

/-- The `message.content` field, when the message is a dict. -/
def msgContent (msg : Option JValue) : Option JValue :=
  match msg with
  | some (JValue.obj mf) => jget mf "content"
  | _ => none

/-- Body of the `tool_use` extraction loop in `extract_events`: one content
item to an optional `ToolUseEvent` (skips non-dicts, wrong `type`, and
missing/empty tool names; defaults a non-string id to `None` and a
non-dict input to `{}`). -/
def toolUseItemEvent (sid uuid puuid ts : Option String) (item : JValue) :
    Option ToolUseEvent :=
  match item with
  | JValue.obj f =>
    if isTypeTag f "tool_use" then
      match jget f "name" with
      | some (JValue.str nm) =>
        if nm = "" then none
        else
          some
            { session_id := sid
              uuid := uuid
              parent_uuid := puuid
              timestamp := ts
              role := "assistant"
              tool_name := nm
              tool_use_id :=
                match jget f "id" with
                | some (JValue.str s) => some s
                | _ => none
              tool_input :=
                match jget f "input" with
                | some (JValue.obj o) => o
                | _ => [] }
      | _ => none
    else none
  | _ => none

/-- Body of the `tool_result` extraction loop in `extract_events`: one content
item to an optional `ToolResultEvent`.  `is_error` is `bool(item.get("is_error"))`,
the content is flattened (string passthrough or joined `"text"` chunks) and
stripped, and the role defaults to `"user"` when the record role is absent. -/
def toolResultItemEvent (sid uuid puuid ts : Option String) (role : Option String)
    (item : JValue) : Option ToolResultEvent :=
  match item with
  | JValue.obj f =>
    if isTypeTag f "tool_result" then
      some
        { session_id := sid
          uuid := uuid
          parent_uuid := puuid
          timestamp := ts
          role := match role with | none => "user" | some r => r
          tool_use_id :=
            match jget f "tool_use_id" with
            | some (JValue.str s) => some s
            | _ => none
          is_error := optTruthy (jget f "is_error")
          content_text :=
            pyStrip
              (match jget f "content" with
               | some (JValue.str s) => s
               | some (JValue.arr c) => String.intercalate "\n" (textChunks c)
               | _ => "") }
    else none
  | _ => none

/-- Section 1 of `extract_events`: tool-use events from an assistant message's
list-shaped content. -/
def toolUseEventsOf (record : List (String × JValue)) : List NormalizedEvent :=
  if recordRole record = some "assistant" then
    match msgContent (recordMsg record) with
    | some (JValue.arr items) =>
      items.filterMap fun item =>
        (toolUseItemEvent (get_str record "sessionId") (get_str record "uuid")
            (get_str record "parentUuid") (get_str record "timestamp") item).map
          NormalizedEvent.toolUse
    | _ => []
  else []

/-- Section 2 of `extract_events`: tool-result events from any dict message's
list-shaped content, regardless of role. -/
def toolResultEventsOf (record : List (String × JValue)) : List NormalizedEvent :=
  match recordMsg record with
  | some (JValue.obj _) =>
    match msgContent (recordMsg record) with
    | some (JValue.arr items) =>
      items.filterMap fun item =>
        (toolResultItemEvent (get_str record "sessionId") (get_str record "uuid")
            (get_str record "parentUuid") (get_str record "timestamp")
            (recordRole record) item).map
          NormalizedEvent.toolResult
    | _ => []
  | _ => []

/-- Section 3 of `extract_events`: one plain message event when the record's
message is a dict, the role is `"user"` or `"assistant"`, and the flattened
text is non-empty (Python `if text:`). -/
def messageEventsOf (record : List (String × JValue)) : List NormalizedEvent :=
  match recordMsg record with
  | some (JValue.obj mf) =>
    if recordRole record = some "user" ∨ recordRole record = some "assistant" then
      if extract_text_from_message (JValue.obj mf) = "" then []
      else
        [NormalizedEvent.message
          { session_id := get_str record "sessionId"
            uuid := get_str record "uuid"
            parent_uuid := get_str record "parentUuid"
            timestamp := get_str record "timestamp"
            role := recordRole record
            text := extract_text_from_message (JValue.obj mf) }]
    else []
  | _ => []

/-- `extract_events` from `projects_extract.py`: record-level filtering
(`isMeta is True`, internal record types), then tool uses, tool results and
the plain message event, in the source's append order. -/
def extract_events (record : List (String × JValue)) : List NormalizedEvent :=
  if isJTrue (jget record "isMeta") then []
  else if get_str record "type" = some "file-history-snapshot"
      ∨ get_str record "type" = some "queue-operation"
      ∨ get_str record "type" = some "summary" then []
  else toolUseEventsOf record ++ toolResultEventsOf record ++ messageEventsOf record

/-! ### Correlation engine (`projects_dataset.py`) -/

/-- The dict built by `_msg_to_dict`. -/
structure MsgDict where
  t : Option String
  role : Option String
  text : String
  uuid : Option String
  parent_uuid : Option String

/-- The dict built by `_tool_use_to_dict` (its `"type"` tag is carried by the
`TraceEntry` constructor below). -/
structure ToolUseDict where
  t : Option String
  tool_name : String
  tool_use_id : Option String
  tool_input : List (String × JValue)
  uuid : Option String
  parent_uuid : Option String

/-- The dict built by `_tool_result_to_dict` (its `"type"` tag is carried by
the `TraceEntry` constructor below). -/
structure ToolResultDict where
  t : Option String
  tool_use_id : Option String
  is_error : Bool
  content_text : String
  uuid : Option String
  parent_uuid : Option String

/-- One trace entry: a dict whose `"type"` field is `"message"`, `"tool_use"`
or `"tool_result"`. -/
inductive TraceEntry where
  | message (d : MsgDict) : TraceEntry
  | toolUse (d : ToolUseDict) : TraceEntry
  | toolResult (d : ToolResultDict) : TraceEntry

/-- `_msg_to_dict` from `projects_dataset.py`. -/
def msgToDict (m : MessageEvent) : MsgDict :=
  { t := m.timestamp
    role := m.role
    text := m.text
    uuid := m.uuid
    parent_uuid := m.parent_uuid }

/-- `_tool_use_to_dict` from `projects_dataset.py`. -/
def toolUseToDict (tu : ToolUseEvent) : ToolUseDict :=
  { t := tu.timestamp
    tool_name := tu.tool_name
    tool_use_id := tu.tool_use_id
    tool_input := tu.tool_input
    uuid := tu.uuid
    parent_uuid := tu.parent_uuid }

/-- `_tool_result_to_dict` from `projects_dataset.py`. -/
def toolResultToDict (tr : ToolResultEvent) : ToolResultDict :=
  { t := tr.timestamp
    tool_use_id := tr.tool_use_id
    is_error := tr.is_error
    content_text := tr.content_text
    uuid := tr.uuid
    parent_uuid := tr.parent_uuid }

/-- `DatasetRow` dataclass from `projects_dataset.py`; the float reward
`1.0` / `-1.0` is modelled by the integer `1` / `-1`. -/
structure DatasetRow where
  session_id : String
  t : Option String
  messages : List MsgDict
  tool_name : String
  tool_input : List (String × JValue)
  tool_result : ToolResultDict
  trace : List TraceEntry
  reward : Int

/-- `_reward_from_tool_result` from `projects_dataset.py`
(`-1.0 if tool_result.is_error else 1.0`). -/
def reward_from_tool_result (tr : ToolResultEvent) : Int :=
  if tr.is_error then -1 else 1

/-- `_PendingTool` dataclass: the originating tool use, the message-window
snapshot, and the growing trace. -/
structure PendingTool where
  tool_use : ToolUseEvent
  messages : List MessageEvent
  trace : List TraceEntry

/-- The correlator's mutable state: the rolling message window
(`recent_messages`), the pending table (`pending_by_id`, an insertion-ordered
dict modelled as an association list), and `anon_counter`. -/
structure CorrState where
  window : List MessageEvent
  pending : List (String × PendingTool)
  anon : Nat

/-- The initial correlator state: empty window, empty table, counter `0`. -/
def initState : CorrState :=
  { window := [], pending := [], anon := 0 }

/-- The last `n` elements of a list, in order. -/
def lastN (n : Nat) (l : List α) : List α :=
  l.drop (l.length - n)

/-- `deque(maxlen := n).append`: keep the last `n` messages. -/
def pushWin (n : Nat) (w : List MessageEvent) (m : MessageEvent) :
    List MessageEvent :=
  lastN n (w ++ [m])

/-- Python dict lookup on the association-list model: first binding wins. -/
def lookupKey (k : String) : List (String × PendingTool) → Option PendingTool
  | [] => none
  | (k', v) :: rest => if k' = k then some v else lookupKey k rest

/-- Python dict assignment `d[k] = v`: replace in place if the key is
present (keeping its position), else append at the end. -/
def insertKey (k : String) (v : PendingTool) :
    List (String × PendingTool) → List (String × PendingTool)
  | [] => [(k, v)]
  | (k', v') :: rest =>
    if k' = k then (k, v) :: rest else (k', v') :: insertKey k v rest

/-- Python `d.pop(k, None)`'s removal effect: drop the first binding of `k`. -/
def eraseKey (k : String) :
    List (String × PendingTool) → List (String × PendingTool)
  | [] => []
  | (k', v') :: rest => if k' = k then rest else (k', v') :: eraseKey k rest

/-- Append trace entries to a pending invocation's trace. -/
def addTrace (ts : List TraceEntry) (p : PendingTool) : PendingTool :=
  { p with trace := p.trace ++ ts }

/-- The synthesized fallback key
`f"anon:{ev.uuid or 'no-uuid'}:{anon_counter}"` for a tool use whose
`tool_use_id` is falsy. -/
def synthKey (uuid : Option String) (c : Nat) : String :=
  "anon:" ++ (match uuid with
              | some u => if u = "" then "no-uuid" else u
              | none => "no-uuid") ++ ":" ++ toString c

/-- Python `ev.tool_use_id or synthesized`: the real id when it is a
non-empty string, else the synthesized key. -/
def corrKey (tu : ToolUseEvent) (c : Nat) : String :=
  match tu.tool_use_id with
  | some i => if i = "" then synthKey tu.uuid c else i
  | none => synthKey tu.uuid c

/-- Python `pending.tool_use.session_id or ""`. -/
def orEmpty (o : Option String) : String :=
  match o with
  | some s => s
  | none => ""

/-- Python `a or b` on optional strings (`None` and `""` are falsy). -/
def orOpt (a b : Option String) : Option String :=
  match a with
  | some s => if s = "" then b else some s
  | none => b

/-- The `DatasetRow` built when a tool result matches a pending invocation;
`p` is the pending invocation with the `"tool_result"` trace entry already
appended (the code appends to `pending.trace` before building the row). -/
def mkRow (p : PendingTool) (tr : ToolResultEvent) : DatasetRow :=
  { session_id := orEmpty p.tool_use.session_id
    t := orOpt p.tool_use.timestamp tr.timestamp
    messages := p.messages.map msgToDict
    tool_name := p.tool_use.tool_name
    tool_input := p.tool_use.tool_input
    tool_result := toolResultToDict tr
    trace := p.trace
    reward := reward_from_tool_result tr }

/-- One iteration of the event loop of `iter_dataset_rows_from_events`:
`n` is `max_context_messages`, `b` is `include_messages_in_trace`.  Returns
the updated state and the rows yielded by this event (zero or one). -/
def stepEvent (n : Nat) (b : Bool) (s : CorrState) (ev : NormalizedEvent) :
    CorrState × List DatasetRow :=
  match ev with
  | NormalizedEvent.message m =>
    ({ window := pushWin n s.window m
       pending :=
         if b then
           s.pending.map fun kp =>
             (kp.1, addTrace [TraceEntry.message (msgToDict m)] kp.2)
         else s.pending
       anon := s.anon }, [])
  | NormalizedEvent.toolUse tu =>
    ({ window := s.window
       pending :=
         insertKey (corrKey tu (s.anon + 1))
           { tool_use := tu
             messages := s.window
             trace := [TraceEntry.toolUse (toolUseToDict tu)] }
           s.pending
       anon := s.anon + 1 }, [])
  | NormalizedEvent.toolResult tr =>
    match tr.tool_use_id with
    | none => (s, [])
    | some i =>
      if i = "" then (s, [])
      else
        match lookupKey i s.pending with
        | none => (s, [])
        | some p =>
          ({ window := s.window
             pending := eraseKey i s.pending
             anon := s.anon },
           [mkRow (addTrace [TraceEntry.toolResult (toolResultToDict tr)] p) tr])

/-- The whole event loop: fold `stepEvent` over the stream, collecting the
yielded rows in order. -/
def runEvents (n : Nat) (b : Bool) :
    List NormalizedEvent → CorrState → CorrState × List DatasetRow
  | [], s => (s, [])
  | e :: es, s =>
    ((runEvents n b es (stepEvent n b s e).1).1,
     (stepEvent n b s e).2 ++ (runEvents n b es (stepEvent n b s e).1).2)

/-- `iter_dataset_rows_from_events` from `projects_dataset.py`: the rows
yielded for a finite event stream, from the fresh state. -/
def iter_dataset_rows_from_events (events : List NormalizedEvent)
    (max_context_messages : Nat) (include_messages_in_trace : Bool) :
    List DatasetRow :=
  (runEvents max_context_messages include_messages_in_trace events initState).2

/-! ### Derived notions used in the statements -/

/-- The message events of a stream, in order. -/
def msgsOf (es : List NormalizedEvent) : List MessageEvent :=
  es.filterMap fun e =>
    match e with
    | NormalizedEvent.message m => some m
    | _ => none

/-- The `"message"` trace entries a stream segment appends to every pending
invocation (none when trace enrichment is off). -/
def traceOf (b : Bool) (es : List NormalizedEvent) : List TraceEntry :=
  if b then (msgsOf es).map fun m => TraceEntry.message (msgToDict m) else []

/-- Well-formedness of a normalized event: a tool-use event always carries a
non-empty tool name. -/
def wellFormedEvent : NormalizedEvent → Prop
  | NormalizedEvent.toolUse tu => tu.tool_name ≠ ""
  | _ => True

/-- Correlator-table invariant: every pending invocation's trace starts with
its own `"tool_use"` entry, and its key is either the invocation's real
non-empty id or a synthesized `anon` key. -/
def pendingOk (l : List (String × PendingTool)) : Prop :=
  ∀ kp ∈ l,
    kp.2.trace.head? = some (TraceEntry.toolUse (toolUseToDict kp.2.tool_use)) ∧
    ((kp.2.tool_use.tool_use_id = some kp.1 ∧ kp.1 ≠ "") ∨
      ∃ u c, kp.1 = synthKey u c)

/-- A row built from an id-less tool use can only have been matched by a
tool result whose id is literally a synthesized key. -/
def rowOkAnon (es : List NormalizedEvent) (r : DatasetRow) : Prop :=
  ∀ d, r.trace.head? = some (TraceEntry.toolUse d) →
    (d.tool_use_id = none ∨ d.tool_use_id = some "") →
    ∃ u c tr, NormalizedEvent.toolResult tr ∈ es ∧
      tr.tool_use_id = some (synthKey u c)

/-- The pending table has pairwise-distinct keys (a Python dict always
does; `insertKey` from the empty table preserves this). -/
def keysOk (l : List (String × PendingTool)) : Prop :=
  (l.map Prod.fst).Nodup

/-- History-indexed snapshot invariant: after the correlator has consumed
the stream `done`, every pending invocation arose at some tool-use position
of `done`, its `messages` are exactly the last at most `n` message events
strictly before that position, and its trace still starts with that tool
use's entry. -/
def pendingSnap (n : Nat) (done : List NormalizedEvent)
    (l : List (String × PendingTool)) : Prop :=
  ∀ kp ∈ l, ∃ pre post,
    done = pre ++ NormalizedEvent.toolUse kp.2.tool_use :: post ∧
    kp.2.messages = lastN n (msgsOf pre) ∧
    kp.2.trace.head? = some (TraceEntry.toolUse (toolUseToDict kp.2.tool_use))

/-! ### Concrete inputs used by witnesses and counterexamples -/

/-- A record whose message content is the whitespace-only plain string `" "`. -/
def recWsRecord : List (String × JValue) :=
  [("message", JValue.obj [("role", JValue.str "user"), ("content", JValue.str " ")])]

/-- A record with an ordinary non-empty user message. -/
def recHiRecord : List (String × JValue) :=
  [("message", JValue.obj [("role", JValue.str "user"), ("content", JValue.str "hi")])]

/-- A record with `isMeta : true` and an otherwise complete assistant
`tool_use` payload. -/
def recMetaRecord : List (String × JValue) :=
  [("isMeta", JValue.bool true),
   ("message",
    JValue.obj
      [("role", JValue.str "assistant"),
       ("content",
        JValue.arr
          [JValue.obj
            [("type", JValue.str "tool_use"), ("name", JValue.str "Read"),
             ("id", JValue.str "t1"), ("input", JValue.obj [])]])])]

/-- A record with a `tool_result` item whose `is_error` is the truthy
non-boolean string `"false"`. -/
def recTrRecord : List (String × JValue) :=
  [("message",
    JValue.obj
      [("role", JValue.str "user"),
       ("content",
        JValue.arr
          [JValue.obj
            [("type", JValue.str "tool_result"), ("tool_use_id", JValue.str "t1"),
             ("is_error", JValue.str "false"), ("content", JValue.str "boom")]])])]

/-- The fields of the single `tool_result` item of `recTrRecord`. -/
def recTrItemFields : List (String × JValue) :=
  [("type", JValue.str "tool_result"), ("tool_use_id", JValue.str "t1"),
   ("is_error", JValue.str "false"), ("content", JValue.str "boom")]

/-- A user message event `"do it"`. -/
def msgDoIt : MessageEvent :=
  { session_id := none, uuid := none, parent_uuid := none, timestamp := none,
    role := some "user", text := "do it" }

/-- A second user message event `"again"`. -/
def msgAgain : MessageEvent :=
  { session_id := none, uuid := none, parent_uuid := none, timestamp := none,
    role := some "user", text := "again" }

/-- A tool use `Read` with real invocation id `"t1"`. -/
def tuRead : ToolUseEvent :=
  { session_id := none, uuid := none, parent_uuid := none, timestamp := some "T1",
    role := "assistant", tool_name := "Read", tool_use_id := some "t1",
    tool_input := [("path", JValue.str "/f")] }

/-- A second tool use with the same id `"t1"` but different input. -/
def tuRead2 : ToolUseEvent :=
  { session_id := none, uuid := none, parent_uuid := none, timestamp := some "T3",
    role := "assistant", tool_name := "Read", tool_use_id := some "t1",
    tool_input := [("path", JValue.str "/g")] }

/-- A successful tool result for invocation id `"t1"`. -/
def trOk : ToolResultEvent :=
  { session_id := none, uuid := none, parent_uuid := none, timestamp := some "T2",
    role := "user", tool_use_id := some "t1", is_error := false,
    content_text := "ok" }

/-- A duplicate late result for invocation id `"t1"`. -/
def trDup : ToolResultEvent :=
  { session_id := none, uuid := none, parent_uuid := none, timestamp := some "T4",
    role := "user", tool_use_id := some "t1", is_error := true,
    content_text := "late" }

/-- A tool result whose id `"zz"` matches no pending invocation. -/
def trOrphan : ToolResultEvent :=
  { session_id := none, uuid := none, parent_uuid := none, timestamp := some "T9",
    role := "user", tool_use_id := some "zz", is_error := false,
    content_text := "late" }

/-- A tool use carrying no invocation id (and no uuid). -/
def tuAnon : ToolUseEvent :=
  { session_id := none, uuid := none, parent_uuid := none, timestamp := none,
    role := "assistant", tool_name := "T", tool_use_id := none, tool_input := [] }

/-- A tool result whose id happens to equal the synthesized key of `tuAnon`. -/
def trAnonHit : ToolResultEvent :=
  { session_id := none, uuid := none, parent_uuid := none, timestamp := none,
    role := "user", tool_use_id := some "anon:no-uuid:1", is_error := false,
    content_text := "ok" }

/-- The two-event stream registering an id-less tool use and then matching
its synthesized key. -/
def anonStream : List NormalizedEvent :=
  [NormalizedEvent.toolUse tuAnon, NormalizedEvent.toolResult trAnonHit]

/-- The row `anonStream` produces — a row for an id-less tool use. -/
def anonRow : DatasetRow :=
  { session_id := ""
    t := none
    messages := []
    tool_name := "T"
    tool_input := []
    tool_result := toolResultToDict trAnonHit
    trace := [TraceEntry.toolUse (toolUseToDict tuAnon),
              TraceEntry.toolResult (toolResultToDict trAnonHit)]
    reward := 1 }

/-- The spec's concrete scenario stream: a user message, a `Read` tool use
with id `"t1"`, and its successful result. -/
def readStream : List NormalizedEvent :=
  [NormalizedEvent.message msgDoIt, NormalizedEvent.toolUse tuRead,
   NormalizedEvent.toolResult trOk]

/-- The single row `readStream` produces. -/
def rowReadOk : DatasetRow :=
  { session_id := ""
    t := some "T1"
    messages := [msgToDict msgDoIt]
    tool_name := "Read"
    tool_input := [("path", JValue.str "/f")]
    tool_result := toolResultToDict trOk
    trace := [TraceEntry.toolUse (toolUseToDict tuRead),
              TraceEntry.toolResult (toolResultToDict trOk)]
    reward := 1 }

/-- Two user messages, then the `Read` tool use and its result — used to
exercise window truncation with capacity `1`. -/
def readStream2 : List NormalizedEvent :=
  [NormalizedEvent.message msgDoIt, NormalizedEvent.message msgAgain,
   NormalizedEvent.toolUse tuRead, NormalizedEvent.toolResult trOk]

/-- The single row `readStream2` produces under window capacity `1`: only
the most recent message survives in the snapshot. -/
def rowReadWin1 : DatasetRow :=
  { session_id := ""
    t := some "T1"
    messages := [msgToDict msgAgain]
    tool_name := "Read"
    tool_input := [("path", JValue.str "/f")]
    tool_result := toolResultToDict trOk
    trace := [TraceEntry.toolUse (toolUseToDict tuRead),
              TraceEntry.toolResult (toolResultToDict trOk)]
    reward := 1 }

/-- A one-entry correlator state used to exercise the orphan-result rule. -/
def stateT9 : CorrState :=
  { window := []
    pending := [("t9", { tool_use := tuRead, messages := [],
                         trace := [TraceEntry.toolUse (toolUseToDict tuRead)] })]
    anon := 3 }

/-! ### Helper lemmas about the correlator fold -/

theorem runEvents_append (n : Nat) (b : Bool) (l₁ l₂ : List NormalizedEvent)
    (s : CorrState) :
    runEvents n b (l₁ ++ l₂) s =
      ((runEvents n b l₂ (runEvents n b l₁ s).1).1,
       (runEvents n b l₁ s).2 ++ (runEvents n b l₂ (runEvents n b l₁ s).1).2) := by
  induction l₁ generalizing s with
  | nil => simp [runEvents]
  | cons e es ih => simp [runEvents, ih, List.append_assoc]

theorem lookupKey_insertKey_self (k : String) (v : PendingTool)
    (l : List (String × PendingTool)) :
    lookupKey k (insertKey k v l) = some v := by
  induction l with
  | nil => simp [insertKey, lookupKey]
  | cons kp rest ih =>
    by_cases h : kp.1 = k
    · simp [insertKey, lookupKey, h]
    · simp [insertKey, lookupKey, h, ih]

theorem lookupKey_map_addTrace (k : String) (ts : List TraceEntry)
    (l : List (String × PendingTool)) :
    lookupKey k (l.map fun kp => (kp.1, addTrace ts kp.2)) =
      (lookupKey k l).map (addTrace ts) := by
  induction l with
  | nil => simp [lookupKey]
  | cons kp rest ih =>
    by_cases h : kp.1 = k
    · simp [lookupKey, h]
    · simp [lookupKey, h, ih]

theorem mem_of_lookupKey {k : String} {p : PendingTool}
    {l : List (String × PendingTool)} (h : lookupKey k l = some p) : (k, p) ∈ l := by
  induction l with
  | nil => simp [lookupKey] at h
  | cons kp rest ih =>
    by_cases hk : kp.1 = k
    · rw [lookupKey, if_pos hk] at h
      obtain rfl : kp.2 = p := Option.some.inj h
      have hkp : (k, kp.2) = kp := by rw [← hk]
      rw [hkp]
      exact List.mem_cons_self _ _
    · rw [lookupKey, if_neg hk] at h
      exact List.mem_cons_of_mem _ (ih h)

theorem mem_insertKey {kp : String × PendingTool} {k : String} {v : PendingTool}
    {l : List (String × PendingTool)} (h : kp ∈ insertKey k v l) :
    kp = (k, v) ∨ kp ∈ l := by
  induction l with
  | nil => simpa [insertKey] using h
  | cons kp' rest ih =>
    by_cases hk : kp'.1 = k
    · rw [insertKey, if_pos hk, List.mem_cons] at h
      rcases h with h | h
      · exact Or.inl h
      · exact Or.inr (List.mem_cons_of_mem _ h)
    · rw [insertKey, if_neg hk, List.mem_cons] at h
      rcases h with h | h
      · exact Or.inr (h ▸ List.mem_cons_self _ _)
      · rcases ih h with h' | h'
        · exact Or.inl h'
        · exact Or.inr (List.mem_cons_of_mem _ h')

theorem mem_eraseKey {kp : String × PendingTool} {k : String}
    {l : List (String × PendingTool)} (h : kp ∈ eraseKey k l) : kp ∈ l := by
  induction l with
  | nil => simp [eraseKey] at h
  | cons kp' rest ih =>
    by_cases hk : kp'.1 = k
    · rw [eraseKey, if_pos hk] at h
      exact List.mem_cons_of_mem _ h
    · rw [eraseKey, if_neg hk, List.mem_cons] at h
      rcases h with h | h
      · exact h ▸ List.mem_cons_self _ _
      · exact List.mem_cons_of_mem _ (ih h)

theorem head?_append_of_some {α : Type} {t : List α} {a : α}
    (h : t.head? = some a) (ts : List α) : (t ++ ts).head? = some a := by
  cases t with
  | nil => simp at h
  | cons x xs => simpa using h

theorem addTrace_nil (p : PendingTool) : addTrace [] p = p := by
  simp [addTrace]

theorem addTrace_addTrace (ts₁ ts₂ : List TraceEntry) (p : PendingTool) :
    addTrace ts₂ (addTrace ts₁ p) = addTrace (ts₁ ++ ts₂) p := by
  simp [addTrace]

theorem map_addTrace_nil (l : List (String × PendingTool)) :
    (l.map fun kp => (kp.1, addTrace [] kp.2)) = l := by
  simp [addTrace_nil]

theorem length_lastN (n : Nat) (l : List α) : (lastN n l).length ≤ n := by
  simp only [lastN, List.length_drop]
  omega

theorem pushWin_lastN (n : Nat) (l : List MessageEvent) (m : MessageEvent) :
    pushWin n (lastN n l) m = lastN n (l ++ [m]) := by
  unfold pushWin lastN
  rw [← List.drop_append_of_le_length (Nat.sub_le l.length n), List.drop_drop]
  congr 1
  simp only [List.length_drop, List.length_append, List.length_cons,
    List.length_nil]
  omega

theorem foldl_pushWin (n : Nat) (ms : List MessageEvent) :
    ∀ l : List MessageEvent,
      List.foldl (pushWin n) (lastN n l) ms = lastN n (l ++ ms) := by
  induction ms with
  | nil => intro l; simp
  | cons m ms ih =>
    intro l
    rw [List.foldl_cons, pushWin_lastN, ih (l ++ [m])]
    simp

theorem runEvents_window (n : Nat) (b : Bool) (es : List NormalizedEvent) :
    ∀ s : CorrState,
      (runEvents n b es s).1.window = List.foldl (pushWin n) s.window (msgsOf es) := by
  induction es with
  | nil => intro s; simp [runEvents, msgsOf]
  | cons e es ih =>
    intro s
    have hstep : (stepEvent n b s e).1.window =
        List.foldl (pushWin n) s.window (msgsOf [e]) := by
      cases e with
      | message m => simp [stepEvent, msgsOf]
      | toolUse tu => simp [stepEvent, msgsOf]
      | toolResult tr =>
        rcases htid : tr.tool_use_id with _ | i
        · simp [stepEvent, htid, msgsOf]
        · by_cases hi : i = ""
          · simp [stepEvent, htid, hi, msgsOf]
          · rcases hl : lookupKey i s.pending with _ | p
            · simp [stepEvent, htid, hi, hl, msgsOf]
            · simp [stepEvent, htid, hi, hl, msgsOf]
    show (runEvents n b es (stepEvent n b s e).1).1.window = _
    rw [ih, hstep]
    cases e with
    | message m => simp [msgsOf]
    | toolUse tu => simp [msgsOf]
    | toolResult tr => simp [msgsOf]

theorem map_addTrace_addTrace (ts₁ ts₂ : List TraceEntry)
    (l : List (String × PendingTool)) :
    ((l.map fun kp => (kp.1, addTrace ts₁ kp.2)).map
        fun kp => (kp.1, addTrace ts₂ kp.2)) =
      l.map fun kp => (kp.1, addTrace (ts₁ ++ ts₂) kp.2) := by
  rw [List.map_map]
  apply List.map_congr_left
  intro kp _
  simp [Function.comp, addTrace]

theorem runEvents_msgs (n : Nat) (b : Bool) (mid : List NormalizedEvent)
    (h : ∀ e ∈ mid, ∃ m, e = NormalizedEvent.message m) :
    ∀ s : CorrState,
      runEvents n b mid s =
        ({ window := List.foldl (pushWin n) s.window (msgsOf mid)
           pending := s.pending.map fun kp => (kp.1, addTrace (traceOf b mid) kp.2)
           anon := s.anon }, []) := by
  induction mid with
  | nil =>
    intro s
    simp [runEvents, msgsOf, traceOf, map_addTrace_nil]
  | cons e mid ih =>
    intro s
    obtain ⟨m, rfl⟩ := h e (List.mem_cons_self e mid)
    have h' : ∀ e ∈ mid, ∃ m, e = NormalizedEvent.message m := fun e he =>
      h e (List.mem_cons_of_mem _ he)
    show ((runEvents n b mid (stepEvent n b s (NormalizedEvent.message m)).1).1,
      (stepEvent n b s (NormalizedEvent.message m)).2 ++
        (runEvents n b mid (stepEvent n b s (NormalizedEvent.message m)).1).2) = _
    rw [ih h']
    cases b with
    | false =>
      simp [stepEvent, msgsOf, traceOf]
    | true =>
      simp [stepEvent, msgsOf, traceOf, map_addTrace_addTrace]
      intro a p _
      rw [addTrace_addTrace, List.singleton_append]

theorem run_use_msgs_result (n : Nat) (b : Bool) (s : CorrState)
    (tu : ToolUseEvent) (tr : ToolResultEvent) (mid : List NormalizedEvent)
    (i : String) (hi : i ≠ "") (htu : tu.tool_use_id = some i)
    (htr : tr.tool_use_id = some i)
    (hmid : ∀ e ∈ mid, ∃ m, e = NormalizedEvent.message m) :
    runEvents n b
        (NormalizedEvent.toolUse tu :: (mid ++ [NormalizedEvent.toolResult tr])) s =
      (({ window := List.foldl (pushWin n) s.window (msgsOf mid)
          pending :=
            eraseKey i
              ((insertKey i
                  { tool_use := tu, messages := s.window,
                    trace := [TraceEntry.toolUse (toolUseToDict tu)] }
                  s.pending).map fun kp => (kp.1, addTrace (traceOf b mid) kp.2))
          anon := s.anon + 1 } : CorrState),
       [{ session_id := orEmpty tu.session_id
          t := orOpt tu.timestamp tr.timestamp
          messages := s.window.map msgToDict
          tool_name := tu.tool_name
          tool_input := tu.tool_input
          tool_result := toolResultToDict tr
          trace := TraceEntry.toolUse (toolUseToDict tu) ::
            (traceOf b mid ++ [TraceEntry.toolResult (toolResultToDict tr)])
          reward := reward_from_tool_result tr }]) := by
  have hkey : corrKey tu (s.anon + 1) = i := by
    simp [corrKey, htu, hi]
  show ((runEvents n b (mid ++ [NormalizedEvent.toolResult tr])
      (stepEvent n b s (NormalizedEvent.toolUse tu)).1).1,
    (stepEvent n b s (NormalizedEvent.toolUse tu)).2 ++
      (runEvents n b (mid ++ [NormalizedEvent.toolResult tr])
        (stepEvent n b s (NormalizedEvent.toolUse tu)).1).2) = _
  have hstep1 : stepEvent n b s (NormalizedEvent.toolUse tu) =
      (({ window := s.window
          pending :=
            insertKey i
              { tool_use := tu, messages := s.window,
                trace := [TraceEntry.toolUse (toolUseToDict tu)] }
              s.pending
          anon := s.anon + 1 } : CorrState), []) := by
    simp [stepEvent, hkey]
  rw [hstep1]
  rw [runEvents_append, runEvents_msgs n b mid hmid]
  have hlook :
      lookupKey i
        ((insertKey i
            { tool_use := tu, messages := s.window,
              trace := [TraceEntry.toolUse (toolUseToDict tu)] }
            s.pending).map fun kp => (kp.1, addTrace (traceOf b mid) kp.2)) =
      some (addTrace (traceOf b mid)
        { tool_use := tu, messages := s.window,
          trace := [TraceEntry.toolUse (toolUseToDict tu)] }) := by
    rw [lookupKey_map_addTrace, lookupKey_insertKey_self]
    rfl
  have hstep2 :
      stepEvent n b
        ({ window := List.foldl (pushWin n) s.window (msgsOf mid)
           pending :=
             (insertKey i
                { tool_use := tu, messages := s.window,
                  trace := [TraceEntry.toolUse (toolUseToDict tu)] }
                s.pending).map fun kp => (kp.1, addTrace (traceOf b mid) kp.2)
           anon := s.anon + 1 } : CorrState)
        (NormalizedEvent.toolResult tr) =
      (({ window := List.foldl (pushWin n) s.window (msgsOf mid)
          pending :=
            eraseKey i
              ((insertKey i
                  { tool_use := tu, messages := s.window,
                    trace := [TraceEntry.toolUse (toolUseToDict tu)] }
                  s.pending).map fun kp => (kp.1, addTrace (traceOf b mid) kp.2))
          anon := s.anon + 1 } : CorrState),
       [{ session_id := orEmpty tu.session_id
          t := orOpt tu.timestamp tr.timestamp
          messages := s.window.map msgToDict
          tool_name := tu.tool_name
          tool_input := tu.tool_input
          tool_result := toolResultToDict tr
          trace := TraceEntry.toolUse (toolUseToDict tu) ::
            (traceOf b mid ++ [TraceEntry.toolResult (toolResultToDict tr)])
          reward := reward_from_tool_result tr }]) := by
    simp only [stepEvent, htr, hi, if_neg, hlook]
    simp [mkRow, addTrace, hi]
  rw [show runEvents n b [NormalizedEvent.toolResult tr] = fun s' =>
      ((stepEvent n b s' (NormalizedEvent.toolResult tr)).1,
        (stepEvent n b s' (NormalizedEvent.toolResult tr)).2 ++ []) from rfl]
  simp only [hstep2]
  simp

theorem rows_source (n : Nat) (b : Bool) (es : List NormalizedEvent) :
    ∀ (s : CorrState) (r : DatasetRow), r ∈ (runEvents n b es s).2 →
      ∃ tr : ToolResultEvent, NormalizedEvent.toolResult tr ∈ es ∧
        r.tool_result = toolResultToDict tr ∧
        r.reward = reward_from_tool_result tr ∧
        ∃ j, tr.tool_use_id = some j ∧ j ≠ "" := by
  induction es with
  | nil => intro s r hr; simp [runEvents] at hr
  | cons e es ih =>
    intro s r hr
    rw [show (runEvents n b (e :: es) s).2 =
      (stepEvent n b s e).2 ++ (runEvents n b es (stepEvent n b s e).1).2
      from rfl, List.mem_append] at hr
    rcases hr with hr | hr
    · cases e with
      | message m => simp [stepEvent] at hr
      | toolUse tu => simp [stepEvent] at hr
      | toolResult tr =>
        rcases htid : tr.tool_use_id with _ | j
        · simp [stepEvent, htid] at hr
        · by_cases hj : j = ""
          · simp [stepEvent, htid, hj] at hr
          · rcases hl : lookupKey j s.pending with _ | p
            · simp [stepEvent, htid, hj, hl] at hr
            · simp only [stepEvent, htid, hj, hl, if_false, ite_false,
                List.mem_singleton] at hr
              refine ⟨tr, List.mem_cons_self _ _, ?_, ?_, j, htid, hj⟩
              · rw [hr]; rfl
              · rw [hr]; rfl
    · obtain ⟨tr, htr, h1, h2, h3⟩ := ih _ _ hr
      exact ⟨tr, List.mem_cons_of_mem _ htr, h1, h2, h3⟩

theorem pendingOk_stepEvent (n : Nat) (b : Bool) (s : CorrState)
    (e : NormalizedEvent) (hs : pendingOk s.pending) :
    pendingOk (stepEvent n b s e).1.pending := by
  cases e with
  | message m =>
    cases b with
    | false => exact hs
    | true =>
      intro kp hkp
      simp only [stepEvent, if_true, List.mem_map] at hkp
      obtain ⟨kp₀, hkp₀, rfl⟩ := hkp
      obtain ⟨hh, hk⟩ := hs kp₀ hkp₀
      exact ⟨head?_append_of_some hh _, hk⟩
  | toolUse tu =>
    intro kp hkp
    simp only [stepEvent] at hkp
    rcases mem_insertKey hkp with heq | hmem
    · subst heq
      refine ⟨rfl, ?_⟩
      rcases htid : tu.tool_use_id with _ | i2
      · exact Or.inr ⟨tu.uuid, s.anon + 1, by simp [corrKey, htid]⟩
      · by_cases hi2 : i2 = ""
        · exact Or.inr ⟨tu.uuid, s.anon + 1, by simp [corrKey, htid, hi2]⟩
        · refine Or.inl ⟨?_, ?_⟩
          · simp [corrKey, htid, hi2]
          · simp [corrKey, htid, hi2]
    · exact hs kp hmem
  | toolResult tr =>
    rcases htid : tr.tool_use_id with _ | j
    · simpa [stepEvent, htid] using hs
    · by_cases hj : j = ""
      · simpa [stepEvent, htid, hj] using hs
      · rcases hl : lookupKey j s.pending with _ | p
        · simpa [stepEvent, htid, hj, hl] using hs
        · intro kp hkp
          simp only [stepEvent, htid, hj, hl, if_false, ite_false] at hkp
          exact hs kp (mem_eraseKey hkp)

theorem runEvents_anonInv (n : Nat) (b : Bool) :
    ∀ (es : List NormalizedEvent) (s : CorrState), pendingOk s.pending →
      pendingOk (runEvents n b es s).1.pending ∧
      ∀ r ∈ (runEvents n b es s).2, rowOkAnon es r := by
  intro es
  induction es with
  | nil =>
    intro s hs
    exact ⟨hs, by simp [runEvents]⟩
  | cons e es ih =>
    intro s hs
    have hstep : pendingOk (stepEvent n b s e).1.pending :=
      pendingOk_stepEvent n b s e hs
    obtain ⟨h1, h2⟩ := ih (stepEvent n b s e).1 hstep
    refine ⟨h1, ?_⟩
    intro r hr
    rw [show (runEvents n b (e :: es) s).2 =
      (stepEvent n b s e).2 ++ (runEvents n b es (stepEvent n b s e).1).2
      from rfl, List.mem_append] at hr
    rcases hr with hr | hr
    · cases e with
      | message m => simp [stepEvent] at hr
      | toolUse tu => simp [stepEvent] at hr
      | toolResult tr =>
        rcases htid : tr.tool_use_id with _ | j
        · simp [stepEvent, htid] at hr
        · by_cases hj : j = ""
          · simp [stepEvent, htid, hj] at hr
          · rcases hl : lookupKey j s.pending with _ | p
            · simp [stepEvent, htid, hj, hl] at hr
            · simp only [stepEvent, htid, hj, hl, if_false, ite_false,
                List.mem_singleton] at hr
              intro d hd hid
              obtain ⟨hh, hk⟩ := hs (j, p) (mem_of_lookupKey hl)
              have hhead : r.trace.head? =
                  some (TraceEntry.toolUse (toolUseToDict p.tool_use)) := by
                rw [hr]
                exact head?_append_of_some hh _
              have hd' : d = toolUseToDict p.tool_use := by
                rw [hd] at hhead
                cases Option.some.inj hhead
                rfl
              have hdid : d.tool_use_id = p.tool_use.tool_use_id := by
                rw [hd']; rfl
              rcases hk with ⟨heq, hne⟩ | ⟨u, c, hkeq⟩
              · rw [hdid, heq] at hid
                rcases hid with hid | hid
                · exact absurd hid (by simp)
                · exact absurd (Option.some.inj hid) hne
              · exact ⟨u, c, tr, List.mem_cons_self _ _,
                  by rw [htid]; exact congrArg some hkeq⟩
    · intro d hd hid
      obtain ⟨u, c, tr', htr', hkeq⟩ := h2 r hr d hd hid
      exact ⟨u, c, tr', List.mem_cons_of_mem _ htr', hkeq⟩

theorem lookupKey_insertKey_ne {k i : String} (hk : k ≠ i) (v : PendingTool)
    (l : List (String × PendingTool)) :
    lookupKey i (insertKey k v l) = lookupKey i l := by
  induction l with
  | nil => simp [insertKey, lookupKey, hk]
  | cons kp rest ih =>
    by_cases h : kp.1 = k
    · simp [insertKey, lookupKey, h, hk]
    · by_cases h2 : kp.1 = i
      · simp [insertKey, lookupKey, h, h2, Ne.symm hk]
      · simp [insertKey, lookupKey, h, h2, ih]

theorem lookupKey_eraseKey_ne {k i : String} (hk : k ≠ i)
    (l : List (String × PendingTool)) :
    lookupKey i (eraseKey k l) = lookupKey i l := by
  induction l with
  | nil => simp [eraseKey]
  | cons kp rest ih =>
    by_cases h : kp.1 = k
    · simp [eraseKey, lookupKey, h, hk]
    · by_cases h2 : kp.1 = i
      · simp [eraseKey, lookupKey, h, h2, Ne.symm hk]
      · simp [eraseKey, lookupKey, h, h2, ih]

theorem lookupKey_eq_none_of_not_mem {i : String}
    {l : List (String × PendingTool)} (h : i ∉ l.map Prod.fst) :
    lookupKey i l = none := by
  induction l with
  | nil => simp [lookupKey]
  | cons kp rest ih =>
    simp only [List.map_cons, List.mem_cons, not_or] at h
    have hne : ¬kp.1 = i := fun hh => h.1 hh.symm
    rw [lookupKey, if_neg hne]
    exact ih h.2

theorem keys_map_addTrace (ts : List TraceEntry)
    (l : List (String × PendingTool)) :
    ((l.map fun kp => (kp.1, addTrace ts kp.2)).map Prod.fst) =
      l.map Prod.fst := by
  rw [List.map_map]
  rfl

theorem mem_keys_insertKey {x k : String} {v : PendingTool}
    {l : List (String × PendingTool)}
    (h : x ∈ (insertKey k v l).map Prod.fst) :
    x = k ∨ x ∈ l.map Prod.fst := by
  rw [List.mem_map] at h
  obtain ⟨kp, hkp, rfl⟩ := h
  rcases mem_insertKey hkp with rfl | hmem
  · exact Or.inl rfl
  · exact Or.inr (List.mem_map.mpr ⟨kp, hmem, rfl⟩)

theorem mem_keys_eraseKey {x k : String} {l : List (String × PendingTool)}
    (h : x ∈ (eraseKey k l).map Prod.fst) : x ∈ l.map Prod.fst := by
  rw [List.mem_map] at h
  obtain ⟨kp, hkp, rfl⟩ := h
  exact List.mem_map.mpr ⟨kp, mem_eraseKey hkp, rfl⟩

theorem keysOk_insertKey (k : String) (v : PendingTool)
    {l : List (String × PendingTool)} (h : keysOk l) :
    keysOk (insertKey k v l) := by
  induction l with
  | nil => simp [keysOk, insertKey]
  | cons kp rest ih =>
    rw [keysOk, List.map_cons, List.nodup_cons] at h
    by_cases hk : kp.1 = k
    · rw [keysOk, insertKey, if_pos hk, List.map_cons, List.nodup_cons]
      exact ⟨hk ▸ h.1, h.2⟩
    · rw [keysOk, insertKey, if_neg hk, List.map_cons, List.nodup_cons]
      refine ⟨?_, ih h.2⟩
      intro hmem
      rcases mem_keys_insertKey hmem with h' | h'
      · exact hk h'
      · exact h.1 h'

theorem keysOk_eraseKey (k : String) {l : List (String × PendingTool)}
    (h : keysOk l) : keysOk (eraseKey k l) := by
  induction l with
  | nil => simp [keysOk, eraseKey]
  | cons kp rest ih =>
    rw [keysOk, List.map_cons, List.nodup_cons] at h
    by_cases hk : kp.1 = k
    · rw [keysOk, eraseKey, if_pos hk]
      exact h.2
    · rw [keysOk, eraseKey, if_neg hk, List.map_cons, List.nodup_cons]
      exact ⟨fun hmem => h.1 (mem_keys_eraseKey hmem), ih h.2⟩

theorem lookupKey_eraseKey_self {i : String} {l : List (String × PendingTool)}
    (h : keysOk l) : lookupKey i (eraseKey i l) = none := by
  induction l with
  | nil => simp [eraseKey, lookupKey]
  | cons kp rest ih =>
    rw [keysOk, List.map_cons, List.nodup_cons] at h
    by_cases hk : kp.1 = i
    · rw [eraseKey, if_pos hk]
      exact lookupKey_eq_none_of_not_mem (hk ▸ h.1)
    · rw [eraseKey, if_neg hk, lookupKey, if_neg hk]
      exact ih h.2

theorem keysOk_stepEvent (n : Nat) (b : Bool) (s : CorrState)
    (e : NormalizedEvent) (hs : keysOk s.pending) :
    keysOk (stepEvent n b s e).1.pending := by
  cases e with
  | message m =>
    cases b with
    | false => exact hs
    | true =>
      show keysOk (s.pending.map fun kp => (kp.1, addTrace _ kp.2))
      rw [keysOk, keys_map_addTrace]
      exact hs
  | toolUse tu => exact keysOk_insertKey _ _ hs
  | toolResult tr =>
    rcases htid : tr.tool_use_id with _ | j
    · simpa [stepEvent, htid] using hs
    · by_cases hj : j = ""
      · simpa [stepEvent, htid, hj] using hs
      · rcases hl : lookupKey j s.pending with _ | q
        · simpa [stepEvent, htid, hj, hl] using hs
        · have : (stepEvent n b s (NormalizedEvent.toolResult tr)).1.pending =
              eraseKey j s.pending := by
            simp [stepEvent, htid, hj, hl]
          rw [this]
          exact keysOk_eraseKey _ hs

theorem stepEvent_window_toolResult (n : Nat) (b : Bool) (s : CorrState)
    (tr : ToolResultEvent) :
    (stepEvent n b s (NormalizedEvent.toolResult tr)).1.window = s.window := by
  rcases htid : tr.tool_use_id with _ | j
  · simp [stepEvent, htid]
  · by_cases hj : j = ""
    · simp [stepEvent, htid, hj]
    · rcases hl : lookupKey j s.pending with _ | q
      · simp [stepEvent, htid, hj, hl]
      · simp [stepEvent, htid, hj, hl]

theorem pendingSnap_extend {n : Nat} {done : List NormalizedEvent}
    {l : List (String × PendingTool)} (h : pendingSnap n done l)
    (e : NormalizedEvent) : pendingSnap n (done ++ [e]) l := by
  intro kp hkp
  obtain ⟨pre, post, hdec, hm, hh⟩ := h kp hkp
  exact ⟨pre, post ++ [e], by rw [hdec]; simp, hm, hh⟩

theorem runEvents_keysOk (n : Nat) (b : Bool) :
    ∀ (es : List NormalizedEvent) (s : CorrState), keysOk s.pending →
      keysOk (runEvents n b es s).1.pending := by
  intro es
  induction es with
  | nil => intro s hs; exact hs
  | cons e es ih =>
    intro s hs
    exact ih (stepEvent n b s e).1 (keysOk_stepEvent n b s e hs)

theorem rows_no_key (n : Nat) (b : Bool) (i : String) :
    ∀ (es : List NormalizedEvent) (s : CorrState),
      (∀ tu' c, NormalizedEvent.toolUse tu' ∈ es → corrKey tu' c ≠ i) →
      lookupKey i s.pending = none →
      ∀ r ∈ (runEvents n b es s).2, r.tool_result.tool_use_id ≠ some i := by
  intro es
  induction es with
  | nil => intro s _ _ r hr; simp [runEvents] at hr
  | cons e es ih =>
    intro s hes hnone r hr
    have hes' : ∀ tu' c, NormalizedEvent.toolUse tu' ∈ es → corrKey tu' c ≠ i :=
      fun tu' c h => hes tu' c (List.mem_cons_of_mem _ h)
    rw [show (runEvents n b (e :: es) s).2 = (stepEvent n b s e).2 ++
      (runEvents n b es (stepEvent n b s e).1).2 from rfl,
      List.mem_append] at hr
    cases e with
    | message m =>
      rcases hr with hr | hr
      · simp [stepEvent] at hr
      · refine ih _ hes' ?_ r hr
        cases b with
        | false => exact hnone
        | true =>
          show lookupKey i
            (s.pending.map fun kp => (kp.1, addTrace _ kp.2)) = none
          rw [lookupKey_map_addTrace, hnone]
          rfl
    | toolUse tu =>
      rcases hr with hr | hr
      · simp [stepEvent] at hr
      · refine ih _ hes' ?_ r hr
        have hkey : corrKey tu (s.anon + 1) ≠ i :=
          hes tu (s.anon + 1) (List.mem_cons_self _ _)
        show lookupKey i (insertKey (corrKey tu (s.anon + 1)) _ s.pending) = none
        rw [lookupKey_insertKey_ne hkey]
        exact hnone
    | toolResult tr =>
      rcases htid : tr.tool_use_id with _ | j
      · have hstep : stepEvent n b s (NormalizedEvent.toolResult tr) = (s, []) := by
          simp [stepEvent, htid]
        rw [hstep] at hr
        rcases hr with hr | hr
        · simp at hr
        · exact ih _ hes' hnone r hr
      · by_cases hj : j = ""
        · have hstep : stepEvent n b s (NormalizedEvent.toolResult tr) = (s, []) := by
            simp [stepEvent, htid, hj]
          rw [hstep] at hr
          rcases hr with hr | hr
          · simp at hr
          · exact ih _ hes' hnone r hr
        · by_cases hji : j = i
          · subst hji
            have hstep : stepEvent n b s (NormalizedEvent.toolResult tr) = (s, []) := by
              simp [stepEvent, htid, hj, hnone]
            rw [hstep] at hr
            rcases hr with hr | hr
            · simp at hr
            · exact ih _ hes' hnone r hr
          · rcases hl : lookupKey j s.pending with _ | q
            · have hstep : stepEvent n b s (NormalizedEvent.toolResult tr) = (s, []) := by
                simp [stepEvent, htid, hj, hl]
              rw [hstep] at hr
              rcases hr with hr | hr
              · simp at hr
              · exact ih _ hes' hnone r hr
            · have hstep : stepEvent n b s (NormalizedEvent.toolResult tr) =
                  ({ window := s.window, pending := eraseKey j s.pending,
                     anon := s.anon },
                   [mkRow (addTrace [TraceEntry.toolResult (toolResultToDict tr)] q)
                      tr]) := by
                simp [stepEvent, htid, hj, hl]
              rw [hstep] at hr
              rcases hr with hr | hr
              · rw [List.mem_singleton] at hr
                subst hr
                rw [show (mkRow (addTrace
                    [TraceEntry.toolResult (toolResultToDict tr)] q)
                    tr).tool_result.tool_use_id = tr.tool_use_id from rfl, htid]
                exact fun hh => hji (Option.some.inj hh)
              · refine ih _ hes' ?_ r hr
                show lookupKey i (eraseKey j s.pending) = none
                rw [lookupKey_eraseKey_ne hji]
                exact hnone

theorem rows_at_key (n : Nat) (b : Bool) (i : String) :
    ∀ (es : List NormalizedEvent) (s : CorrState) (p : PendingTool)
      (t0 : TraceEntry),
      keysOk s.pending →
      (∀ tu' c, NormalizedEvent.toolUse tu' ∈ es → corrKey tu' c ≠ i) →
      lookupKey i s.pending = some p →
      p.trace.head? = some t0 →
      ((runEvents n b es s).2.countP
          (fun r => decide (r.tool_result.tool_use_id = some i))) ≤ 1 ∧
      ∀ r ∈ (runEvents n b es s).2, r.tool_result.tool_use_id = some i →
        r.tool_name = p.tool_use.tool_name ∧
        r.tool_input = p.tool_use.tool_input ∧
        r.messages = p.messages.map msgToDict ∧
        r.trace.head? = some t0 := by
  intro es
  induction es with
  | nil =>
    intro s p t0 _ _ _ _
    constructor
    · simp [runEvents]
    · intro r hr
      simp [runEvents] at hr
  | cons e es ih =>
    intro s p t0 hkeys hes hlook hhead
    have hes' : ∀ tu' c, NormalizedEvent.toolUse tu' ∈ es → corrKey tu' c ≠ i :=
      fun tu' c h => hes tu' c (List.mem_cons_of_mem _ h)
    have hkeys' : keysOk (stepEvent n b s e).1.pending :=
      keysOk_stepEvent n b s e hkeys
    rw [show (runEvents n b (e :: es) s).2 = (stepEvent n b s e).2 ++
      (runEvents n b es (stepEvent n b s e).1).2 from rfl]
    cases e with
    | message m =>
      obtain ⟨p', hlookp, htu, hmsgs, hh'⟩ :
          ∃ p', lookupKey i (stepEvent n b s (NormalizedEvent.message m)).1.pending =
              some p' ∧ p'.tool_use = p.tool_use ∧ p'.messages = p.messages ∧
            p'.trace.head? = some t0 := by
        cases b with
        | false => exact ⟨p, hlook, rfl, rfl, hhead⟩
        | true =>
          refine ⟨addTrace [TraceEntry.message (msgToDict m)] p, ?_, rfl, rfl, ?_⟩
          · show lookupKey i
              (s.pending.map fun kp => (kp.1, addTrace _ kp.2)) = some _
            rw [lookupKey_map_addTrace, hlook]
            rfl
          · exact head?_append_of_some hhead _
      obtain ⟨hc, hall⟩ := ih (stepEvent n b s (NormalizedEvent.message m)).1 p' t0
        hkeys' hes' hlookp hh'
      rw [show (stepEvent n b s (NormalizedEvent.message m)).2 = [] from rfl,
        List.nil_append]
      refine ⟨hc, ?_⟩
      intro r hr hid
      obtain ⟨h1, h2, h3, h4⟩ := hall r hr hid
      exact ⟨by rw [h1, htu], by rw [h2, htu], by rw [h3, hmsgs], h4⟩
    | toolUse tu =>
      have hkey : corrKey tu (s.anon + 1) ≠ i :=
        hes tu (s.anon + 1) (List.mem_cons_self _ _)
      have hlookp : lookupKey i
          (stepEvent n b s (NormalizedEvent.toolUse tu)).1.pending = some p := by
        show lookupKey i (insertKey (corrKey tu (s.anon + 1)) _ s.pending) = some p
        rw [lookupKey_insertKey_ne hkey]
        exact hlook
      obtain ⟨hc, hall⟩ := ih _ p t0 hkeys' hes' hlookp hhead
      rw [show (stepEvent n b s (NormalizedEvent.toolUse tu)).2 = [] from rfl,
        List.nil_append]
      exact ⟨hc, hall⟩
    | toolResult tr =>
      rcases htid : tr.tool_use_id with _ | j
      · have hstep : stepEvent n b s (NormalizedEvent.toolResult tr) = (s, []) := by
          simp [stepEvent, htid]
        rw [hstep, List.nil_append]
        exact ih s p t0 hkeys hes' hlook hhead
      · by_cases hj : j = ""
        · have hstep : stepEvent n b s (NormalizedEvent.toolResult tr) = (s, []) := by
            simp [stepEvent, htid, hj]
          rw [hstep, List.nil_append]
          exact ih s p t0 hkeys hes' hlook hhead
        · by_cases hji : j = i
          · subst hji
            have hstep : stepEvent n b s (NormalizedEvent.toolResult tr) =
                ({ window := s.window, pending := eraseKey j s.pending,
                   anon := s.anon },
                 [mkRow (addTrace [TraceEntry.toolResult (toolResultToDict tr)] p)
                    tr]) := by
              simp [stepEvent, htid, hj, hlook]
            rw [hstep]
            have hnone : lookupKey j (eraseKey j s.pending) = none :=
              lookupKey_eraseKey_self hkeys
            have htail := rows_no_key n b j es
              { window := s.window, pending := eraseKey j s.pending,
                anon := s.anon } hes' hnone
            have hrowid : (mkRow (addTrace
                [TraceEntry.toolResult (toolResultToDict tr)] p)
                tr).tool_result.tool_use_id = some j := by
              rw [show (mkRow (addTrace
                [TraceEntry.toolResult (toolResultToDict tr)] p)
                tr).tool_result.tool_use_id = tr.tool_use_id from rfl, htid]
            constructor
            · rw [List.countP_append]
              have h1 : List.countP
                  (fun r => decide (r.tool_result.tool_use_id = some j))
                  [mkRow (addTrace
                    [TraceEntry.toolResult (toolResultToDict tr)] p) tr] = 1 := by
                simp [List.countP_cons, hrowid]
              have h2 : List.countP
                  (fun r => decide (r.tool_result.tool_use_id = some j))
                  (runEvents n b es
                    { window := s.window, pending := eraseKey j s.pending,
                      anon := s.anon }).2 = 0 := by
                rw [List.countP_eq_zero]
                intro r hr
                simpa using htail r hr
              rw [h1, h2]
            · intro r hr hid
              rw [List.mem_append] at hr
              rcases hr with hr | hr
              · rw [List.mem_singleton] at hr
                subst hr
                exact ⟨rfl, rfl, rfl, head?_append_of_some hhead _⟩
              · exact absurd hid (htail r hr)
          · rcases hl : lookupKey j s.pending with _ | q
            · have hstep : stepEvent n b s (NormalizedEvent.toolResult tr) =
                  (s, []) := by
                simp [stepEvent, htid, hj, hl]
              rw [hstep, List.nil_append]
              exact ih s p t0 hkeys hes' hlook hhead
            · have hstep : stepEvent n b s (NormalizedEvent.toolResult tr) =
                  ({ window := s.window, pending := eraseKey j s.pending,
                     anon := s.anon },
                   [mkRow (addTrace
                      [TraceEntry.toolResult (toolResultToDict tr)] q) tr]) := by
                simp [stepEvent, htid, hj, hl]
              rw [hstep]
              have hkeys'' : keysOk (eraseKey j s.pending) :=
                keysOk_eraseKey j hkeys
              have hlookp : lookupKey i (eraseKey j s.pending) = some p := by
                rw [lookupKey_eraseKey_ne hji]
                exact hlook
              obtain ⟨hc, hall⟩ := ih
                { window := s.window, pending := eraseKey j s.pending,
                  anon := s.anon } p t0 hkeys'' hes' hlookp hhead
              have hrowid : (mkRow (addTrace
                  [TraceEntry.toolResult (toolResultToDict tr)] q)
                  tr).tool_result.tool_use_id = some j := by
                rw [show (mkRow (addTrace
                  [TraceEntry.toolResult (toolResultToDict tr)] q)
                  tr).tool_result.tool_use_id = tr.tool_use_id from rfl, htid]
              constructor
              · rw [List.countP_append]
                have h1 : List.countP
                    (fun r => decide (r.tool_result.tool_use_id = some i))
                    [mkRow (addTrace
                      [TraceEntry.toolResult (toolResultToDict tr)] q) tr] = 0 := by
                  simp [List.countP_cons, hrowid, hji]
                rw [h1]
                simpa using hc
              · intro r hr hid
                rw [List.mem_append] at hr
                rcases hr with hr | hr
                · rw [List.mem_singleton] at hr
                  subst hr
                  rw [hrowid] at hid
                  exact absurd (Option.some.inj hid) hji
                · exact hall r hr hid

theorem runEvents_snapshot (n : Nat) (b : Bool) :
    ∀ (es done : List NormalizedEvent) (s : CorrState),
      s.window = lastN n (msgsOf done) →
      pendingSnap n done s.pending →
      (∀ r ∈ (runEvents n b es s).2,
        ∃ pre post tu, done ++ es = pre ++ NormalizedEvent.toolUse tu :: post ∧
          r.trace.head? = some (TraceEntry.toolUse (toolUseToDict tu)) ∧
          r.messages = (lastN n (msgsOf pre)).map msgToDict) ∧
      (runEvents n b es s).1.window = lastN n (msgsOf (done ++ es)) ∧
      pendingSnap n (done ++ es) (runEvents n b es s).1.pending := by
  intro es
  induction es with
  | nil =>
    intro done s hw hp
    refine ⟨?_, ?_, ?_⟩
    · intro r hr
      simp [runEvents] at hr
    · simpa [runEvents] using hw
    · simpa [runEvents] using hp
  | cons e es ih =>
    intro done s hw hp
    have hw' : (stepEvent n b s e).1.window = lastN n (msgsOf (done ++ [e])) := by
      cases e with
      | message m =>
        show pushWin n s.window m = _
        rw [hw, pushWin_lastN]
        congr 1
        simp [msgsOf, List.filterMap_append]
      | toolUse tu =>
        show s.window = _
        rw [hw]
        congr 1
        simp [msgsOf, List.filterMap_append]
      | toolResult tr =>
        rw [stepEvent_window_toolResult, hw]
        congr 1
        simp [msgsOf, List.filterMap_append]
    have hp' : pendingSnap n (done ++ [e]) (stepEvent n b s e).1.pending := by
      cases e with
      | message m =>
        cases b with
        | false => exact pendingSnap_extend hp _
        | true =>
          intro kp hkp
          simp only [stepEvent, if_true, List.mem_map] at hkp
          obtain ⟨kp₀, hkp₀, rfl⟩ := hkp
          obtain ⟨pre, post, hdec, hm, hh⟩ := hp kp₀ hkp₀
          exact ⟨pre, post ++ [NormalizedEvent.message m],
            by rw [hdec]; simp [addTrace], hm, head?_append_of_some hh _⟩
      | toolUse tu =>
        intro kp hkp
        simp only [stepEvent] at hkp
        rcases mem_insertKey hkp with heq | hmem
        · subst heq
          exact ⟨done, [], rfl, hw, rfl⟩
        · exact pendingSnap_extend hp _ kp hmem
      | toolResult tr =>
        rcases htid : tr.tool_use_id with _ | j
        · have hstep : stepEvent n b s (NormalizedEvent.toolResult tr) = (s, []) := by
            simp [stepEvent, htid]
          rw [hstep]
          exact pendingSnap_extend hp _
        · by_cases hj : j = ""
          · have hstep : stepEvent n b s (NormalizedEvent.toolResult tr) = (s, []) := by
              simp [stepEvent, htid, hj]
            rw [hstep]
            exact pendingSnap_extend hp _
          · rcases hl : lookupKey j s.pending with _ | q
            · have hstep : stepEvent n b s (NormalizedEvent.toolResult tr) =
                  (s, []) := by
                simp [stepEvent, htid, hj, hl]
              rw [hstep]
              exact pendingSnap_extend hp _
            · have hstep : (stepEvent n b s (NormalizedEvent.toolResult tr)).1.pending =
                  eraseKey j s.pending := by
                simp [stepEvent, htid, hj, hl]
              rw [hstep]
              intro kp hkp
              exact pendingSnap_extend hp _ kp (mem_eraseKey hkp)
    obtain ⟨hrows, hwin, hpend⟩ := ih (done ++ [e]) (stepEvent n b s e).1 hw' hp'
    have hassoc : (done ++ [e]) ++ es = done ++ e :: es := by simp
    rw [hassoc] at hrows hwin hpend
    refine ⟨?_, hwin, hpend⟩
    intro r hr
    rw [show (runEvents n b (e :: es) s).2 = (stepEvent n b s e).2 ++
      (runEvents n b es (stepEvent n b s e).1).2 from rfl,
      List.mem_append] at hr
    rcases hr with hr | hr
    · cases e with
      | message m => simp [stepEvent] at hr
      | toolUse tu => simp [stepEvent] at hr
      | toolResult tr =>
        rcases htid : tr.tool_use_id with _ | j
        · simp [stepEvent, htid] at hr
        · by_cases hj : j = ""
          · simp [stepEvent, htid, hj] at hr
          · rcases hl : lookupKey j s.pending with _ | q
            · simp [stepEvent, htid, hj, hl] at hr
            · simp only [stepEvent, htid, hj, hl, if_false, ite_false,
                List.mem_singleton] at hr
              obtain ⟨pre, post, hdec, hm, hh⟩ := hp (j, q) (mem_of_lookupKey hl)
              refine ⟨pre, post ++ NormalizedEvent.toolResult tr :: es, q.tool_use,
                ?_, ?_, ?_⟩
              · rw [hdec]
                simp
              · rw [hr]
                exact head?_append_of_some hh _
              · rw [hr, show (mkRow (addTrace
                  [TraceEntry.toolResult (toolResultToDict tr)] q) tr).messages =
                  q.messages.map msgToDict from rfl, hm]
    · exact hrows r hr

/-! ### Helper lemmas about the normalizer -/

theorem toolUseItemEvent_tool_name {sid uuid puuid ts : Option String}
    {item : JValue} {tu : ToolUseEvent}
    (h : toolUseItemEvent sid uuid puuid ts item = some tu) :
    tu.tool_name ≠ "" := by
  cases item with
  | obj f =>
    by_cases htag : isTypeTag f "tool_use"
    · rcases hnm : jget f "name" with _ | v
      · simp [toolUseItemEvent, htag, hnm] at h
      · cases v with
        | str nm =>
          by_cases hn : nm = ""
          · simp [toolUseItemEvent, htag, hnm, hn] at h
          · simp only [toolUseItemEvent, htag, if_true, hnm, if_neg hn] at h
            rw [← Option.some.inj h]
            exact hn
        | null => simp [toolUseItemEvent, htag, hnm] at h
        | bool b => simp [toolUseItemEvent, htag, hnm] at h
        | num q => simp [toolUseItemEvent, htag, hnm] at h
        | arr xs => simp [toolUseItemEvent, htag, hnm] at h
        | obj o => simp [toolUseItemEvent, htag, hnm] at h
    · simp [toolUseItemEvent, htag] at h
  | null => simp [toolUseItemEvent] at h
  | bool b => simp [toolUseItemEvent] at h
  | num q => simp [toolUseItemEvent] at h
  | str s => simp [toolUseItemEvent] at h
  | arr xs => simp [toolUseItemEvent] at h

theorem mem_toolUseEventsOf {record : List (String × JValue)}
    {e : NormalizedEvent} (h : e ∈ toolUseEventsOf record) :
    ∃ tu, e = NormalizedEvent.toolUse tu ∧ tu.tool_name ≠ "" := by
  unfold toolUseEventsOf at h
  split at h
  · split at h
    · rw [List.mem_filterMap] at h
      obtain ⟨item, _, hitem⟩ := h
      obtain ⟨tu, htu, rfl⟩ := Option.map_eq_some'.mp hitem
      exact ⟨tu, rfl, toolUseItemEvent_tool_name htu⟩
    · simp at h
  · simp at h

theorem mem_toolResultEventsOf {record : List (String × JValue)}
    {e : NormalizedEvent} (h : e ∈ toolResultEventsOf record) :
    ∃ tr, e = NormalizedEvent.toolResult tr := by
  unfold toolResultEventsOf at h
  split at h
  · split at h
    · rw [List.mem_filterMap] at h
      obtain ⟨item, _, hitem⟩ := h
      obtain ⟨tr, _, rfl⟩ := Option.map_eq_some'.mp hitem
      exact ⟨tr, rfl⟩
    · simp at h
  · simp at h

theorem mem_messageEventsOf {record : List (String × JValue)}
    {e : NormalizedEvent} (h : e ∈ messageEventsOf record) :
    ∃ m, e = NormalizedEvent.message m ∧ m.text ≠ "" := by
  unfold messageEventsOf at h
  split at h
  case h_1 mf heq =>
    split at h
    · split at h
      · simp at h
      case isFalse htext =>
        rw [List.mem_singleton] at h
        subst h
        exact ⟨_, rfl, htext⟩
    · simp at h
  case h_2 => simp at h

/-! ### The claims -/

/-- C1 (amended): the normalizer emits a `MessageEvent` only when the
flattened text of the record's message is a non-empty string.  (As stated,
the claim is false: a plain-string content is passed through unstripped, so
the text may be whitespace-only — see the counterexample.) -/
theorem claim_C1 (record : List (String × JValue)) (m : MessageEvent)
    (h : NormalizedEvent.message m ∈ extract_events record) : m.text ≠ "" := by
  unfold extract_events at h
  split at h
  · simp at h
  · split at h
    · simp at h
    · rw [List.mem_append] at h
      rcases h with h | h
      · rw [List.mem_append] at h
        rcases h with h | h
        · obtain ⟨tu, heq, _⟩ := mem_toolUseEventsOf h
          exact absurd heq (by simp)
        · obtain ⟨tr, heq⟩ := mem_toolResultEventsOf h
          exact absurd heq (by simp)
      · obtain ⟨m', heq, hne⟩ := mem_messageEventsOf h
        obtain rfl : m = m' := by injection heq
        exact hne

/-- C1 counterexample: the record whose message content is the plain string
`" "` yields a `MessageEvent` whose text is `" "`, which is empty after
trimming — refuting "never constructs a MessageEvent whose text is empty or
whitespace-only after trimming". -/
theorem claim_C1_counterexample :
    extract_events recWsRecord =
      [NormalizedEvent.message
        { session_id := none, uuid := none, parent_uuid := none,
          timestamp := none, role := some "user", text := " " }] ∧
    pyStrip " " = "" :=
  ⟨rfl, rfl⟩

/-- C1 witness: the amended claim applied to a concrete record. -/
theorem claim_C1_witness :
    ({ session_id := none, uuid := none, parent_uuid := none, timestamp := none,
       role := some "user", text := "hi" } : MessageEvent).text ≠ "" :=
  claim_C1 recHiRecord _
    (by
      rw [show extract_events recHiRecord =
        [NormalizedEvent.message
          { session_id := none, uuid := none, parent_uuid := none,
            timestamp := none, role := some "user", text := "hi" }] from rfl]
      exact List.mem_singleton.mpr rfl)

/-- C8: the normalizer is a total function — for every JSON record it
returns a list of events (it can only consume records defensively, never
fail), and every tool-use event it emits carries a non-empty tool name. -/
theorem claim_C8 (record : List (String × JValue)) :
    ∃ evs, extract_events record = evs ∧ ∀ e ∈ evs, wellFormedEvent e := by
  refine ⟨extract_events record, rfl, ?_⟩
  intro e he
  unfold extract_events at he
  split at he
  · simp at he
  · split at he
    · simp at he
    · rw [List.mem_append] at he
      rcases he with he | he
      · rw [List.mem_append] at he
        rcases he with he | he
        · obtain ⟨tu, rfl, hname⟩ := mem_toolUseEventsOf he
          exact hname
        · obtain ⟨tr, rfl⟩ := mem_toolResultEventsOf he
          trivial
      · obtain ⟨m, rfl, _⟩ := mem_messageEventsOf he
        trivial

/-- C9: a record with `isMeta : true`, or whose declared type is
`file-history-snapshot`, `queue-operation` or `summary`, yields no events. -/
theorem claim_C9 (record : List (String × JValue))
    (h : isJTrue (jget record "isMeta") = true ∨
      get_str record "type" = some "file-history-snapshot" ∨
      get_str record "type" = some "queue-operation" ∨
      get_str record "type" = some "summary") :
    extract_events record = [] := by
  unfold extract_events
  rcases h with h | h | h | h
  · simp [h]
  all_goals cases hm : isJTrue (jget record "isMeta") <;> simp [hm, h]

/-- C9 witness: a record with `isMeta : true` and an otherwise-complete
assistant `tool_use` payload yields zero events. -/
theorem claim_C9_witness : extract_events recMetaRecord = [] :=
  claim_C9 recMetaRecord (Or.inl rfl)

/-- C5: a tool result with no invocation id, an empty one, or an id matching
no pending invocation, emits no row and leaves the correlator state — in
particular the pending table — exactly as it was. -/
theorem claim_C5 (n : Nat) (b : Bool) (s : CorrState) (tr : ToolResultEvent)
    (h : ∀ i, tr.tool_use_id = some i → i = "" ∨ lookupKey i s.pending = none) :
    stepEvent n b s (NormalizedEvent.toolResult tr) = (s, []) := by
  rcases htid : tr.tool_use_id with _ | i
  · simp [stepEvent, htid]
  · rcases h i htid with hi | hl
    · simp [stepEvent, htid, hi]
    · by_cases hi : i = ""
      · simp [stepEvent, htid, hi]
      · simp [stepEvent, htid, hi, hl]

/-- C5 witness: an orphan result with id `"zz"` against a state whose only
pending key is `"t9"`. -/
theorem claim_C5_witness :
    stepEvent 10 true stateT9 (NormalizedEvent.toolResult trOrphan) =
      (stateT9, []) :=
  claim_C5 10 true stateT9 trOrphan
    (fun i h => Or.inr (by rw [← Option.some.inj h]; rfl))

/-- C7: every emitted row's reward is `-1` when its tool result's error flag
is set and `1` otherwise, and it equals the reward function applied to the
matched tool-result event. -/
theorem claim_C7 (n : Nat) (b : Bool) (es : List NormalizedEvent)
    (r : DatasetRow) (h : r ∈ iter_dataset_rows_from_events es n b) :
    r.reward = (if r.tool_result.is_error then (-1 : Int) else 1) ∧
    ∃ tr : ToolResultEvent, NormalizedEvent.toolResult tr ∈ es ∧
      r.tool_result = toolResultToDict tr ∧
      r.reward = reward_from_tool_result tr := by
  obtain ⟨tr, htr, h1, h2, _⟩ := rows_source n b es initState r h
  refine ⟨?_, tr, htr, h1, h2⟩
  rw [h1, h2]
  rfl

/-- C7 witness: the reward claim applied to the row of the concrete
message / tool-use / tool-result stream. -/
theorem claim_C7_witness :
    rowReadOk.reward = (if rowReadOk.tool_result.is_error then (-1 : Int) else 1) ∧
    ∃ tr : ToolResultEvent, NormalizedEvent.toolResult tr ∈ readStream ∧
      rowReadOk.tool_result = toolResultToDict tr ∧
      rowReadOk.reward = reward_from_tool_result tr :=
  claim_C7 10 true readStream rowReadOk
    (by
      rw [show iter_dataset_rows_from_events readStream 10 true = [rowReadOk]
        from rfl]
      exact List.mem_singleton.mpr rfl)

/-- C2 counterexample: the id-less tool use `tuAnon` is registered under the
synthesized key `"anon:no-uuid:1"`, and the result event `trAnonHit`, whose
invocation id is exactly that string, does match it — a row is emitted for
an id-less tool use, refuting "can never equal the invocation id of any
ToolResultEvent" and "no Dataset Row is ever emitted". -/
theorem claim_C2_counterexample :
    iter_dataset_rows_from_events anonStream 10 true = [anonRow] := rfl

/-- C2 (amended): a row whose originating tool use carried no invocation id
(or an empty one) can only arise from a tool result whose invocation id is
literally a synthesized key `synthKey u c`; in particular, streams whose
result ids never take that form emit no row for id-less tool uses. -/
theorem claim_C2 (n : Nat) (b : Bool) (es : List NormalizedEvent)
    (r : DatasetRow) (hr : r ∈ iter_dataset_rows_from_events es n b)
    (d : ToolUseDict) (hd : r.trace.head? = some (TraceEntry.toolUse d))
    (hid : d.tool_use_id = none ∨ d.tool_use_id = some "") :
    ∃ u c tr, NormalizedEvent.toolResult tr ∈ es ∧
      tr.tool_use_id = some (synthKey u c) := by
  have h0 : pendingOk initState.pending := by
    intro kp hkp
    simp [initState] at hkp
  obtain ⟨_, h2⟩ := runEvents_anonInv n b es initState h0
  exact h2 r hr d hd hid

/-- C2 witness: the amended claim applied to the `anonStream` row. -/
theorem claim_C2_witness :
    ∃ u c tr, NormalizedEvent.toolResult tr ∈ anonStream ∧
      tr.tool_use_id = some (synthKey u c) :=
  claim_C2 10 true anonStream anonRow
    (by
      rw [show iter_dataset_rows_from_events anonStream 10 true = [anonRow]
        from rfl]
      exact List.mem_singleton.mpr rfl)
    (toolUseToDict tuAnon) rfl (Or.inl rfl)

/-- C3: a tool use with non-empty id `i`, followed after message events only
by a tool result with the same id, contributes exactly one row — emitted at
the result's position, built from that tool use and result — regardless of
what precedes or follows. -/
theorem claim_C3 (n : Nat) (b : Bool) (pre mid post : List NormalizedEvent)
    (tu : ToolUseEvent) (tr : ToolResultEvent) (i : String)
    (hi : i ≠ "") (htu : tu.tool_use_id = some i) (htr : tr.tool_use_id = some i)
    (hmid : ∀ e ∈ mid, ∃ m, e = NormalizedEvent.message m) :
    (runEvents n b
        (pre ++ NormalizedEvent.toolUse tu ::
          (mid ++ NormalizedEvent.toolResult tr :: post)) initState).2 =
      (runEvents n b pre initState).2 ++
        { session_id := orEmpty tu.session_id
          t := orOpt tu.timestamp tr.timestamp
          messages := ((runEvents n b pre initState).1.window).map msgToDict
          tool_name := tu.tool_name
          tool_input := tu.tool_input
          tool_result := toolResultToDict tr
          trace := TraceEntry.toolUse (toolUseToDict tu) ::
            (traceOf b mid ++ [TraceEntry.toolResult (toolResultToDict tr)])
          reward := reward_from_tool_result tr } ::
        (runEvents n b post
          (runEvents n b
            (pre ++ NormalizedEvent.toolUse tu ::
              (mid ++ [NormalizedEvent.toolResult tr])) initState).1).2 := by
  have hsplit : pre ++ NormalizedEvent.toolUse tu ::
      (mid ++ NormalizedEvent.toolResult tr :: post) =
      (pre ++ NormalizedEvent.toolUse tu ::
        (mid ++ [NormalizedEvent.toolResult tr])) ++ post := by
    simp
  rw [hsplit, runEvents_append,
    runEvents_append n b pre
      (NormalizedEvent.toolUse tu :: (mid ++ [NormalizedEvent.toolResult tr])),
    run_use_msgs_result n b _ tu tr mid i hi htu htr hmid]
  simp

/-- C3 witness: the spec's concrete scenario, decomposed around the pair. -/
theorem claim_C3_witness :
    (runEvents 10 true
        ([NormalizedEvent.message msgDoIt] ++ NormalizedEvent.toolUse tuRead ::
          ([] ++ NormalizedEvent.toolResult trOk :: [])) initState).2 =
      (runEvents 10 true [NormalizedEvent.message msgDoIt] initState).2 ++
        { session_id := orEmpty tuRead.session_id
          t := orOpt tuRead.timestamp trOk.timestamp
          messages :=
            ((runEvents 10 true [NormalizedEvent.message msgDoIt]
                initState).1.window).map msgToDict
          tool_name := tuRead.tool_name
          tool_input := tuRead.tool_input
          tool_result := toolResultToDict trOk
          trace := TraceEntry.toolUse (toolUseToDict tuRead) ::
            (traceOf true [] ++ [TraceEntry.toolResult (toolResultToDict trOk)])
          reward := reward_from_tool_result trOk } ::
        (runEvents 10 true []
          (runEvents 10 true
            ([NormalizedEvent.message msgDoIt] ++ NormalizedEvent.toolUse tuRead ::
              ([] ++ [NormalizedEvent.toolResult trOk])) initState).1).2 :=
  claim_C3 10 true [NormalizedEvent.message msgDoIt] [] [] tuRead trOk "t1"
    (by decide) rfl rfl
    (fun e he => absurd he (List.not_mem_nil e))

/-- C4: for every event stream and every emitted row, the stream splits at
the row's own tool use (identified by the row's trace head), and the row's
`messages` are exactly the at most `n` most recent message events strictly
before that tool use, in original order — snapshotted at invocation time, so
no later message can appear — with length at most `n`. -/
theorem claim_C4 (n : Nat) (b : Bool) (es : List NormalizedEvent)
    (r : DatasetRow) (hr : r ∈ iter_dataset_rows_from_events es n b) :
    r.messages.length ≤ n ∧
    ∃ pre post tu, es = pre ++ NormalizedEvent.toolUse tu :: post ∧
      r.trace.head? = some (TraceEntry.toolUse (toolUseToDict tu)) ∧
      r.messages = (lastN n (msgsOf pre)).map msgToDict := by
  have h0w : initState.window = lastN n (msgsOf ([] : List NormalizedEvent)) := by
    simp [initState, msgsOf, lastN]
  have h0p : pendingSnap n ([] : List NormalizedEvent) initState.pending := by
    intro kp hkp
    simp [initState] at hkp
  obtain ⟨hrows, _, _⟩ := runEvents_snapshot n b es [] initState h0w h0p
  obtain ⟨pre, post, tu, hdec, hhead, hmsg⟩ := hrows r hr
  refine ⟨?_, pre, post, tu, by simpa using hdec, hhead, hmsg⟩
  rw [hmsg, List.length_map]
  exact length_lastN n _

/-- C4 witness: window capacity `1` with two preceding messages — the
emitted row keeps only the most recent one. -/
theorem claim_C4_witness :
    rowReadWin1.messages.length ≤ 1 ∧
    ∃ pre post tu, readStream2 = pre ++ NormalizedEvent.toolUse tu :: post ∧
      rowReadWin1.trace.head? = some (TraceEntry.toolUse (toolUseToDict tu)) ∧
      rowReadWin1.messages = (lastN 1 (msgsOf pre)).map msgToDict :=
  claim_C4 1 true readStream2 rowReadWin1
    (by
      rw [show iter_dataset_rows_from_events readStream2 1 true = [rowReadWin1]
        from rfl]
      exact List.mem_singleton.mpr rfl)

/-- C6: for every stream `pre ++ [use₁] ++ mid ++ [use₂] ++ rest` in which
the two tool uses share the non-empty id `i`, no result in `mid` resolves
`i` ("neither resolved before the second arrives"), and no event of `rest`
registers correlation key `i` again: the second registration replaces the
first in the pending table (same key, fresh trace, second tool use); the
segment from `use₁` through `use₂` emits no row for id `i` at all (so no row
is ever emitted for the first use); and `rest` — which may contain arbitrary
events, including duplicate late results for `i` — emits at most one row for
id `i`, and any such row is built from the second tool use (its name, input,
window snapshot, and trace head). -/
theorem claim_C6 (n : Nat) (b : Bool) (pre mid rest : List NormalizedEvent)
    (tu1 tu2 : ToolUseEvent) (i : String)
    (hi : i ≠ "") (_htu1 : tu1.tool_use_id = some i)
    (htu2 : tu2.tool_use_id = some i)
    (hmid : ∀ tr', NormalizedEvent.toolResult tr' ∈ mid →
      tr'.tool_use_id ≠ some i)
    (hrest : ∀ tu' c, NormalizedEvent.toolUse tu' ∈ rest → corrKey tu' c ≠ i) :
    ((runEvents n b
        (pre ++ NormalizedEvent.toolUse tu1 ::
          (mid ++ NormalizedEvent.toolUse tu2 :: rest)) initState).2 =
      (runEvents n b pre initState).2 ++
      (runEvents n b
        (NormalizedEvent.toolUse tu1 :: (mid ++ [NormalizedEvent.toolUse tu2]))
        (runEvents n b pre initState).1).2 ++
      (runEvents n b rest
        (runEvents n b
          (pre ++ NormalizedEvent.toolUse tu1 ::
            (mid ++ [NormalizedEvent.toolUse tu2])) initState).1).2) ∧
    (lookupKey i
        (runEvents n b
          (pre ++ NormalizedEvent.toolUse tu1 ::
            (mid ++ [NormalizedEvent.toolUse tu2])) initState).1.pending =
      some
        { tool_use := tu2
          messages :=
            (runEvents n b (pre ++ NormalizedEvent.toolUse tu1 :: mid)
              initState).1.window
          trace := [TraceEntry.toolUse (toolUseToDict tu2)] }) ∧
    (((runEvents n b rest
        (runEvents n b
          (pre ++ NormalizedEvent.toolUse tu1 ::
            (mid ++ [NormalizedEvent.toolUse tu2])) initState).1).2.countP
        fun r => decide (r.tool_result.tool_use_id = some i)) ≤ 1) ∧
    (∀ r ∈ (runEvents n b rest
        (runEvents n b
          (pre ++ NormalizedEvent.toolUse tu1 ::
            (mid ++ [NormalizedEvent.toolUse tu2])) initState).1).2,
      r.tool_result.tool_use_id = some i →
        r.tool_name = tu2.tool_name ∧ r.tool_input = tu2.tool_input ∧
        r.messages =
          ((runEvents n b (pre ++ NormalizedEvent.toolUse tu1 :: mid)
            initState).1.window).map msgToDict ∧
        r.trace.head? = some (TraceEntry.toolUse (toolUseToDict tu2))) ∧
    ∀ r ∈ (runEvents n b
        (NormalizedEvent.toolUse tu1 :: (mid ++ [NormalizedEvent.toolUse tu2]))
        (runEvents n b pre initState).1).2,
      r.tool_result.tool_use_id ≠ some i := by
  have hsplit2 : pre ++ NormalizedEvent.toolUse tu1 ::
      (mid ++ [NormalizedEvent.toolUse tu2]) =
      (pre ++ NormalizedEvent.toolUse tu1 :: mid) ++
        [NormalizedEvent.toolUse tu2] := by
    simp
  have hlook : lookupKey i
      (runEvents n b
        (pre ++ NormalizedEvent.toolUse tu1 ::
          (mid ++ [NormalizedEvent.toolUse tu2])) initState).1.pending =
      some
        { tool_use := tu2
          messages :=
            (runEvents n b (pre ++ NormalizedEvent.toolUse tu1 :: mid)
              initState).1.window
          trace := [TraceEntry.toolUse (toolUseToDict tu2)] } := by
    rw [hsplit2, runEvents_append]
    have hkey2 : corrKey tu2
        ((runEvents n b (pre ++ NormalizedEvent.toolUse tu1 :: mid)
          initState).1.anon + 1) = i := by
      simp [corrKey, htu2, hi]
    show lookupKey i
      (insertKey (corrKey tu2 _) _
        (runEvents n b (pre ++ NormalizedEvent.toolUse tu1 :: mid)
          initState).1.pending) = some _
    rw [hkey2, lookupKey_insertKey_self]
  have hkeysA : keysOk
      (runEvents n b
        (pre ++ NormalizedEvent.toolUse tu1 ::
          (mid ++ [NormalizedEvent.toolUse tu2])) initState).1.pending := by
    refine runEvents_keysOk n b _ initState ?_
    simp [initState, keysOk]
  obtain ⟨hcount, hbuilt⟩ := rows_at_key n b i rest
    (runEvents n b
      (pre ++ NormalizedEvent.toolUse tu1 ::
        (mid ++ [NormalizedEvent.toolUse tu2])) initState).1
    { tool_use := tu2
      messages :=
        (runEvents n b (pre ++ NormalizedEvent.toolUse tu1 :: mid)
          initState).1.window
      trace := [TraceEntry.toolUse (toolUseToDict tu2)] }
    (TraceEntry.toolUse (toolUseToDict tu2)) hkeysA hrest hlook rfl
  refine ⟨?_, hlook, hcount, hbuilt, ?_⟩
  · have hsplit : pre ++ NormalizedEvent.toolUse tu1 ::
        (mid ++ NormalizedEvent.toolUse tu2 :: rest) =
        (pre ++ NormalizedEvent.toolUse tu1 ::
          (mid ++ [NormalizedEvent.toolUse tu2])) ++ rest := by
      simp
    rw [hsplit, runEvents_append,
      runEvents_append n b pre
        (NormalizedEvent.toolUse tu1 :: (mid ++ [NormalizedEvent.toolUse tu2]))]
  · intro r hr
    obtain ⟨tr', htr', hres, _, _⟩ := rows_source n b _ _ r hr
    rw [List.mem_cons] at htr'
    rcases htr' with htr' | htr'
    · exact absurd htr' (by simp)
    · rw [List.mem_append] at htr'
      rcases htr' with htr' | htr'
      · rw [hres]
        exact hmid tr' htr'
      · rw [List.mem_singleton] at htr'
        exact absurd htr' (by simp)

/-- C6 witness: two back-to-back tool uses with id `"t1"` and differing
inputs, then the matching result followed by a duplicate late result — one
row, built from the second use, the duplicate dropped. -/
theorem claim_C6_witness :
    ((runEvents 10 true
        ([] ++ NormalizedEvent.toolUse tuRead ::
          ([] ++ NormalizedEvent.toolUse tuRead2 ::
            [NormalizedEvent.toolResult trOk, NormalizedEvent.toolResult trDup]))
        initState).2 =
      (runEvents 10 true [] initState).2 ++
      (runEvents 10 true
        (NormalizedEvent.toolUse tuRead :: ([] ++ [NormalizedEvent.toolUse tuRead2]))
        (runEvents 10 true [] initState).1).2 ++
      (runEvents 10 true
        [NormalizedEvent.toolResult trOk, NormalizedEvent.toolResult trDup]
        (runEvents 10 true
          ([] ++ NormalizedEvent.toolUse tuRead ::
            ([] ++ [NormalizedEvent.toolUse tuRead2])) initState).1).2) ∧
    (lookupKey "t1"
        (runEvents 10 true
          ([] ++ NormalizedEvent.toolUse tuRead ::
            ([] ++ [NormalizedEvent.toolUse tuRead2])) initState).1.pending =
      some
        { tool_use := tuRead2
          messages :=
            (runEvents 10 true ([] ++ NormalizedEvent.toolUse tuRead :: [])
              initState).1.window
          trace := [TraceEntry.toolUse (toolUseToDict tuRead2)] }) ∧
    (((runEvents 10 true
        [NormalizedEvent.toolResult trOk, NormalizedEvent.toolResult trDup]
        (runEvents 10 true
          ([] ++ NormalizedEvent.toolUse tuRead ::
            ([] ++ [NormalizedEvent.toolUse tuRead2])) initState).1).2.countP
        fun r => decide (r.tool_result.tool_use_id = some "t1")) ≤ 1) ∧
    (∀ r ∈ (runEvents 10 true
        [NormalizedEvent.toolResult trOk, NormalizedEvent.toolResult trDup]
        (runEvents 10 true
          ([] ++ NormalizedEvent.toolUse tuRead ::
            ([] ++ [NormalizedEvent.toolUse tuRead2])) initState).1).2,
      r.tool_result.tool_use_id = some "t1" →
        r.tool_name = tuRead2.tool_name ∧ r.tool_input = tuRead2.tool_input ∧
        r.messages =
          ((runEvents 10 true ([] ++ NormalizedEvent.toolUse tuRead :: [])
            initState).1.window).map msgToDict ∧
        r.trace.head? = some (TraceEntry.toolUse (toolUseToDict tuRead2))) ∧
    ∀ r ∈ (runEvents 10 true
        (NormalizedEvent.toolUse tuRead :: ([] ++ [NormalizedEvent.toolUse tuRead2]))
        (runEvents 10 true [] initState).1).2,
      r.tool_result.tool_use_id ≠ some "t1" :=
  claim_C6 10 true [] []
    [NormalizedEvent.toolResult trOk, NormalizedEvent.toolResult trDup]
    tuRead tuRead2 "t1" (by decide) rfl rfl
    (fun tr' h => absurd h (List.not_mem_nil _))
    (by intro tu' c h; simp at h)

/-- C10: for every (non-filtered) record whose message content contains a
`tool_result` item, the constructed `ToolResultEvent`'s error flag is the
Python truthiness of the item's raw `is_error` field (absent means falsy),
and the reward of a row matched to it is `-1` exactly when that field is
truthy. -/
theorem claim_C10 (record mf : List (String × JValue)) (items : List JValue)
    (item : JValue) (f : List (String × JValue))
    (hmeta : isJTrue (jget record "isMeta") = false)
    (htype : ¬(get_str record "type" = some "file-history-snapshot" ∨
      get_str record "type" = some "queue-operation" ∨
      get_str record "type" = some "summary"))
    (hmsg : jget record "message" = some (JValue.obj mf))
    (hcontent : jget mf "content" = some (JValue.arr items))
    (hitem : item ∈ items) (hf : item = JValue.obj f)
    (htag : isTypeTag f "tool_result" = true) :
    ∃ ev : ToolResultEvent,
      toolResultItemEvent (get_str record "sessionId") (get_str record "uuid")
        (get_str record "parentUuid") (get_str record "timestamp")
        (recordRole record) item = some ev ∧
      NormalizedEvent.toolResult ev ∈ extract_events record ∧
      ev.is_error = optTruthy (jget f "is_error") ∧
      reward_from_tool_result ev =
        (if optTruthy (jget f "is_error") = true then -1 else 1) := by
  subst hf
  obtain ⟨ev, hev, herr⟩ :
      ∃ ev, toolResultItemEvent (get_str record "sessionId")
          (get_str record "uuid") (get_str record "parentUuid")
          (get_str record "timestamp") (recordRole record) (JValue.obj f) =
          some ev ∧
        ev.is_error = optTruthy (jget f "is_error") := by
    refine ⟨{ session_id := get_str record "sessionId"
              uuid := get_str record "uuid"
              parent_uuid := get_str record "parentUuid"
              timestamp := get_str record "timestamp"
              role := match recordRole record with | none => "user" | some r => r
              tool_use_id := match jget f "tool_use_id" with
                | some (JValue.str s) => some s
                | _ => none
              is_error := optTruthy (jget f "is_error")
              content_text := pyStrip (match jget f "content" with
                | some (JValue.str s) => s
                | some (JValue.arr c) => String.intercalate "\n" (textChunks c)
                | _ => "") }, ?_, rfl⟩
    simp [toolResultItemEvent, htag]
  have hmem : NormalizedEvent.toolResult ev ∈ toolResultEventsOf record := by
    unfold toolResultEventsOf
    rw [show recordMsg record = some (JValue.obj mf) from hmsg,
      show msgContent (some (JValue.obj mf)) = some (JValue.arr items)
        from hcontent]
    exact List.mem_filterMap.mpr ⟨JValue.obj f, hitem, by rw [hev]; rfl⟩
  have hmemAll : NormalizedEvent.toolResult ev ∈ extract_events record := by
    unfold extract_events
    rw [if_neg (by simp [hmeta] : ¬isJTrue (jget record "isMeta") = true),
      if_neg htype]
    exact List.mem_append.mpr (Or.inl (List.mem_append.mpr (Or.inr hmem)))
  refine ⟨ev, hev, hmemAll, herr, ?_⟩
  simp [reward_from_tool_result, herr]

/-- C10 witness: a `tool_result` item whose `is_error` is the truthy
non-boolean string `"false"` — the event's error flag is true and the
reward is `-1`. -/
theorem claim_C10_witness :
    ∃ ev : ToolResultEvent,
      toolResultItemEvent (get_str recTrRecord "sessionId")
        (get_str recTrRecord "uuid") (get_str recTrRecord "parentUuid")
        (get_str recTrRecord "timestamp") (recordRole recTrRecord)
        (JValue.obj recTrItemFields) = some ev ∧
      NormalizedEvent.toolResult ev ∈ extract_events recTrRecord ∧
      ev.is_error = optTruthy (jget recTrItemFields "is_error") ∧
      reward_from_tool_result ev =
        (if optTruthy (jget recTrItemFields "is_error") = true then -1 else 1) :=
  claim_C10 recTrRecord
    [("role", JValue.str "user"),
     ("content", JValue.arr [JValue.obj recTrItemFields])]
    [JValue.obj recTrItemFields] (JValue.obj recTrItemFields) recTrItemFields
    rfl (by decide) rfl rfl (List.mem_singleton.mpr rfl) rfl rfl

end Steve
